import Mathlib

/-!
Verification of `src/world/world.rs` (the `World` spatial-simulation core).

The Rust code is shallowly embedded: the `World` struct and its methods
(`new`, `insert`, `update`, `apply_on_group`, `apply_locally`, `raycast`,
`get_on_segment`, `get_locally`, `get_on_index`, `get_on_group`) are
translated into Lean functions over explicit state.

Modelling decisions, recorded once here:

* `Rc<EntityCell>` shared mutable handles are modelled by an external arena
  (`Store : Nat → Entity`) addressed by stable `Nat` refs; the `World` and
  both spatial hash maps hold refs.  The `RefCell` runtime borrow discipline
  is modelled at the one place this file exercises it: during the update
  pass, visiting the currently-mutably-borrowed entity as its own collision
  candidate is a `BorrowMutError` panic, modelled as `Except.error`.
* `f64` coordinates are modelled by `ℚ`; `f64::sqrt` (used only for the
  ray-cast distance keys) is a parameter `sqrtFn : ℚ → ℚ` of the ray-cast
  context, since floating point square roots are not representable.
  The trigonometric preamble of `raycast` (lines 151-169: `minus_pi_pi`,
  `cos`, `sin`, `tan`, the `(a,b,c)` line coefficients, the endpoint) is
  likewise summarised by the context fields `leftward` (the test
  `|angle| > π/2`), `lineStart`, `lineEnd` and by `grid_raycast`'s output
  being taken as the input cell list; the per-cell candidate loop
  (lines 171-235), which the claims address, is embedded verbatim.
* Collaborators that live outside `src/` (`SpatialHashing`, `Body`,
  `Entity`, `grid_raycast`) are modelled from the spec, §6; each such
  definition carries a `Modelled from the spec:` doc comment.
-/

namespace Ruga

/-- Modelled from the spec: `Location` is a "bounding region in world
space" (`body.rs` is not part of the sources); modelled as an axis-aligned
rectangle with rational bounds. -/
structure Location where
  left : ℚ
  right : ℚ
  down : ℚ
  up : ℚ
deriving DecidableEq, Repr

/-- Modelled from the spec: `physic_type (Static | other)`. -/
inductive PhysicType where
  | Static : PhysicType
  | Kinetic : PhysicType
deriving DecidableEq, Repr

/-- The body-level physical state record (spec §3): id, group bitmask,
collision mask, physic type, death flag, location. -/
structure Body where
  id : Nat
  group : Nat
  mask : Nat
  physicType : PhysicType
  dead : Bool
  loc : Location
deriving DecidableEq, Repr

/-- Modelled from the spec: an `Entity` is a body plus behavioural hooks.
The observable effect of the `on_collision` hook is modelled by a log of
the ids the entity has been told about, in invocation order. -/
structure Entity where
  body : Body
  collisionLog : List Nat
deriving DecidableEq, Repr

/-- The external arena of entities addressed by stable refs (the model of
`Rc<EntityCell>` identity). -/
def Store : Type := Nat → Entity

/-- Write one arena slot. -/
def Store.set (s : Store) (r : Nat) (e : Entity) : Store :=
  fun r' => if r' = r then e else s r'

/-- Modelled from the spec: the behavioural collaborator functions of
`Body`/`Entity` consumed by `World` (spec §6): the collision predicate,
collision resolution (mutates self using other's state), the precise
overlap test `in_location`, the wall-map mutation of `insert`, and the
per-entity `update` hook of step 1 of the update pass. -/
structure Collab where
  collide : Body → Body → Bool
  resolveCollision : Body → Body → Body
  inLocation : Body → Location → Bool
  modifyWallMap : Entity → List (Int × Int) → List (Int × Int)
  updateHook : ℚ → Entity → Entity

/-- Modelled from the spec: the integer grid cells overlapped by the
projection of an interval `[lo, hi]` onto one axis, for cell size `unit`
("inserts into every overlapping cell"). -/
def cellRange (unit lo hi : ℚ) : List Int :=
  let a : Int := (lo / unit).floor
  let b : Int := (hi / unit).floor
  (List.range (b - a + 1).toNat).map (fun k => a + (k : Int))

/-- Modelled from the spec: every grid cell overlapped by a bounding
region, for cell size `unit`. -/
def cellsOf (unit : ℚ) (loc : Location) : List (Int × Int) :=
  (cellRange unit loc.left loc.right).flatMap
    (fun i => (cellRange unit loc.down loc.up).map (fun j => (i, j)))

/-- Modelled from the spec: the uniform-cell spatial hash (spec §6).  The
bucket association list records, in insertion order, one `(cell, ref)`
entry per overlapped cell per insertion — no de-duplication across cells,
matching the spec's contract. -/
structure SpatialHashing where
  unit : ℚ
  buckets : List ((Int × Int) × Nat)
deriving DecidableEq, Repr

/-- Modelled from the spec: `new(cell_size)`. -/
def SpatialHashing.new (unit : ℚ) : SpatialHashing := ⟨unit, []⟩

/-- Modelled from the spec: `insert_locally(location, item)` inserts the
item into every cell its bounding region overlaps. -/
def SpatialHashing.insert_locally (h : SpatialHashing) (loc : Location) (r : Nat) :
    SpatialHashing :=
  { h with buckets := h.buckets ++ (cellsOf h.unit loc).map (fun c => (c, r)) }

/-- Modelled from the spec: `get_on_index(cell) -> list`, the refs stored
in one cell, in insertion order. -/
def SpatialHashing.get_on_index (h : SpatialHashing) (c : Int × Int) : List Nat :=
  (h.buckets.filter (fun p => decide (p.1 = c))).map (fun p => p.2)

/-- Modelled from the spec: `get_locally(location) -> list` visits every
cell the region overlaps, concatenating bucket contents with no
de-duplication across cells. -/
def SpatialHashing.get_locally (h : SpatialHashing) (loc : Location) : List Nat :=
  (cellsOf h.unit loc).flatMap (fun c => h.get_on_index c)

/-- Modelled from the spec: `clear()`. -/
def SpatialHashing.clear (h : SpatialHashing) : SpatialHashing :=
  { h with buckets := [] }

/-- The `World` struct (world.rs lines 13-22), with entity handles held
as arena refs. -/
structure World where
  unit : ℚ
  time : ℚ
  next_id : Nat
  wall_map : List (Int × Int)
  entity_cells : List Nat
  static_hashmap : SpatialHashing
  dynamic_hashmap : SpatialHashing
deriving DecidableEq, Repr

/-- `World::new` (world.rs lines 31-41). -/
def World.new (unit : ℚ) : World :=
  { unit := unit
    time := 0
    next_id := 1
    wall_map := []
    entity_cells := []
    static_hashmap := SpatialHashing.new unit
    dynamic_hashmap := SpatialHashing.new unit }

/-- `World::insert` (world.rs lines 96-107): assign the next id, let the
entity mutate the wall map, insert into the static or dynamic index by
physic type, append to the master list. -/
def World.insert (C : Collab) (ws : World × Store) (r : Nat) : World × Store :=
  let w := ws.1
  let s := ws.2
  let e0 := s r
  let e := { e0 with body := { e0.body with id := w.next_id } }
  let s' := Store.set s r e
  let wall' := C.modifyWallMap e w.wall_map
  let (staticH, dynH) :=
    match e.body.physicType with
    | PhysicType.Static => (w.static_hashmap.insert_locally e.body.loc r, w.dynamic_hashmap)
    | _ => (w.static_hashmap, w.dynamic_hashmap.insert_locally e.body.loc r)
  ({ w with next_id := w.next_id + 1
            wall_map := wall'
            entity_cells := w.entity_cells ++ [r]
            static_hashmap := staticH
            dynamic_hashmap := dynH }, s')

/-- Fold `World::insert` over a list of refs (a sequence of insert calls). -/
def World.insertList (C : Collab) (ws : World × Store) (rs : List Nat) : World × Store :=
  rs.foldl (World.insert C) ws

/-- Rust `Vec::swap_remove(i)`: replace element `i` with the last element
and pop the last. -/
def swapRemove (l : List Nat) (i : Nat) : List Nat :=
  (l.set i (l.getLastD 0)).dropLast

/-- The reclamation scan of `World::update` (world.rs lines 62-70):
`i = 0; while i < len { if dead(v[i]) { v.swap_remove(i) } else { i += 1 } }`. -/
def sweepDead (deadFn : Nat → Bool) (l : List Nat) (i : Nat) : List Nat :=
  if h : i < l.length then
    if deadFn (l.get ⟨i, h⟩) then sweepDead deadFn (swapRemove l i) i
    else sweepDead deadFn l (i + 1)
  else l
termination_by l.length - i
decreasing_by
  · simp only [swapRemove, List.length_dropLast, List.length_set]
    omega
  · omega

/-- The collision closure of `World::update` (world.rs lines 78-85) run
over one candidate list, with the `RefCell` borrow discipline: the
candidate is mutably borrowed first (line 120/126), so visiting the
currently-borrowed entity `r` is a `BorrowMutError` panic, modelled
as `Except.error ()`.  Otherwise the candidate is filtered by group mask
and `in_location` (line 121/127), then on `collide` both bodies are
resolved in source order (entity with other's state, then other with
entity's NEW state) and both `on_collision` hooks fire (entity told
about other first). -/
def processCands (C : Collab) (r : Nat) (loc : Location) (mask : Nat) :
    List Nat → Entity → Store → Except Unit (Entity × Store)
  | [], e, s => Except.ok (e, s)
  | c :: rest, e, s =>
    if c = r then Except.error ()
    else
      let o := s c
      if decide (o.body.group &&& mask ≠ 0) && C.inLocation o.body loc then
        if C.collide e.body o.body then
          let e1 : Entity := { e with body := C.resolveCollision e.body o.body }
          let o1 : Entity := { o with body := C.resolveCollision o.body e1.body }
          let e2 : Entity := { e1 with collisionLog := e1.collisionLog ++ [o1.body.id] }
          let o2 : Entity := { o1 with collisionLog := o1.collisionLog ++ [e2.body.id] }
          processCands C r loc mask rest e2 (Store.set s c o2)
        else processCands C r loc mask rest e s
      else processCands C r loc mask rest e s

/-- `World::apply_locally` (world.rs lines 118-131) as invoked by the
update pass with the collision closure: visit the static index's matches
first, then the dynamic index's, in cell-enumeration order with no
de-duplication, while `r` is mutably borrowed. -/
def World.apply_locally_collide (C : Collab) (w : World) (r : Nat) (mask : Nat)
    (loc : Location) (e : Entity) (s : Store) : Except Unit (Entity × Store) :=
  processCands C r loc mask
    (w.static_hashmap.get_locally loc ++ w.dynamic_hashmap.get_locally loc) e s

/-- Step 4 of `World::update` (world.rs lines 73-89): for each remaining
entity in master-list order, mutably borrow it, run the collision query
over both indexes at its location, write it back, then insert its current
location into the dynamic index. -/
def step4 (C : Collab) : List Nat → World → Store → Except Unit (World × Store)
  | [], w, s => Except.ok (w, s)
  | r :: rest, w, s =>
    let e := s r
    match World.apply_locally_collide C w r e.body.mask e.body.loc e s with
    | Except.error u => Except.error u
    | Except.ok (e', s') =>
      let s2 := Store.set s' r e'
      let w2 := { w with
        dynamic_hashmap := w.dynamic_hashmap.insert_locally (s2 r).body.loc r }
      step4 C rest w2 s2

/-- `World::update` (world.rs lines 57-90): behaviour update of every
entity (the `EntityCell::update` hook, modelled as a per-entity
transformer), reclamation of dead entities by swap-remove, clearing of
the dynamic index, then the incremental rebuild with local collision
resolution. -/
def World.update (C : Collab) (dt : ℚ) (w : World) (s : Store) :
    Except Unit (World × Store) :=
  let s1 := w.entity_cells.foldl (fun st r => Store.set st r (C.updateHook dt (st r))) s
  let cells2 := sweepDead (fun r => (s1 r).body.dead) w.entity_cells 0
  let w1 := { w with entity_cells := cells2, dynamic_hashmap := w.dynamic_hashmap.clear }
  step4 C cells2 w1 s1

/-- How many times a query over `locQ`'s cells visits an entity whose
location was indexed at `locE`'s cells (one visit per shared cell,
counting multiplicity): the number of callback invocations `apply_locally`
makes for that single indexed entity. -/
def overlapVisits (u : ℚ) (locQ locE : Location) : Nat :=
  ((cellsOf u locQ).map (fun c => (cellsOf u locE).count c)).sum

/-- `World::get_on_segment` (world.rs lines 238-240): the body is
`assert!(false)` — an unconditional assertion failure for every argument
tuple, modelled as `Except.error`. -/
def World.get_on_segment (_mask : Nat) (_x _y _angle _length : ℚ) :
    Except String Unit :=
  Except.error "assertion failed: false"

/-- `World::get_locally` (world.rs lines 252-262): concatenate region
lookups from both indexes, then retain by group mask and precise overlap. -/
def World.get_locally (C : Collab) (w : World) (s : Store) (mask : Nat)
    (loc : Location) : List Nat :=
  ((w.static_hashmap.get_locally loc) ++ (w.dynamic_hashmap.get_locally loc)).filter
    (fun r => decide ((s r).body.group &&& mask ≠ 0) && C.inLocation (s r).body loc)

/-- `World::apply_on_group` (world.rs lines 109-116): for each master-list
entry in order, mutably borrow it and, if its group intersects the mask,
invoke the callback.  The invocation sequence (the refs handed to the
callback, in order) is returned alongside the updated arena; the callback
is modelled as an entity transformer. -/
def World.apply_on_group (cb : Entity → Entity) (mask : Nat) (w : World) (s : Store) :
    Store × List Nat :=
  w.entity_cells.foldl
    (fun acc r =>
      let e := acc.1 r
      if e.body.group &&& mask ≠ 0 then (Store.set acc.1 r (cb e), acc.2 ++ [r])
      else acc)
    (s, [])

/-! Shared concrete fixtures for witnesses and counterexamples. -/

def unitLoc : Location := ⟨0, 1, 0, 1⟩

def mkEntity (group mask : Nat) (pt : PhysicType) (dead : Bool) (loc : Location) : Entity :=
  ⟨⟨0, group, mask, pt, dead, loc⟩, []⟩

def plainStore : Store := fun _ => mkEntity 1 1 PhysicType.Kinetic false unitLoc

/-- A collaborator whose hooks are as plain as possible: always collide,
resolution keeps the body, precise overlap always true, wall map and
update hook untouched. -/
def plainCollab : Collab :=
  ⟨fun _ _ => true, fun b _ => b, fun _ _ => true, fun _ wm => wm, fun _ e => e⟩

def c8Store : Store := fun _ => mkEntity 1 1 PhysicType.Kinetic true unitLoc

def c8World : World := { World.new 1 with entity_cells := [7] }

def smallLoc : Location := ⟨0, 1/2, 0, 1/2⟩

def wideLoc : Location := ⟨0, 3/2, 0, 1/2⟩

def c1Store : Store := fun _ => mkEntity 1 1 PhysicType.Kinetic false smallLoc

def c1wStore : Store := fun _ => mkEntity 1 1 PhysicType.Kinetic false wideLoc

def staticStore : Store := fun _ => mkEntity 1 1 PhysicType.Static false unitLoc

/-- The per-call context of `World::raycast` (world.rs lines 145-169).
The trigonometric preamble is not representable over ℚ (f64 `cos`, `sin`,
`tan`, `sqrt`, `minus_pi_pi`); its results are carried as fields:
`leftward` is the branch test `angle.abs() > PI/2` (line 193), `lineStart`
and `lineEnd` are `x0.min(x1)`/`x0.max(x1)` (lines 168-169), `sqrtFn`
models `f64::sqrt`, and `bodyRaycast` is the body collaborator
`body.raycast(a,b,c)` for the fixed line coefficients of this call.
`cb` is the user callback (modelled pure; it returns true to stop). -/
structure RayCtx where
  unit : ℚ
  x0 : ℚ
  y0 : ℚ
  leftward : Bool
  lineStart : ℚ
  lineEnd : ℚ
  mask : Nat
  sqrtFn : ℚ → ℚ
  bodyRaycast : Body → Option (ℚ × ℚ × ℚ × ℚ)
  cb : Entity → ℚ → ℚ → Bool

/-- `((x0 - x).powi(2) + (y0 - y).powi(2)).sqrt()` (world.rs lines
197-198, 208-209). -/
def distTo (ctx : RayCtx) (x y : ℚ) : ℚ :=
  ctx.sqrtFn ((ctx.x0 - x) ^ 2 + (ctx.y0 - y) ^ 2)

/-- `segment_start = ((i[0] as f64)*unit).max(line_start)` (line 177). -/
def segStart (ctx : RayCtx) (c : Int × Int) : ℚ :=
  max ((c.1 : ℚ) * ctx.unit) ctx.lineStart

/-- `segment_end = (((i[0]+1) as f64)*unit).min(line_end)` (line 178). -/
def segEnd (ctx : RayCtx) (c : Int × Int) : ℚ :=
  min (((c.1 : ℚ) + 1) * ctx.unit) ctx.lineEnd

/-- `HashSet::insert` on the visited-id set, as a duplicate-free list. -/
def insertId (v : List Nat) (i : Nat) : List Nat :=
  if i ∈ v then v else i :: v

/-- The `while let Some(entity) = res.pop()` recording loop (world.rs
lines 187-217), applied to the popped order (the reverse of the retained
candidate list).  A candidate whose infinite-line intersection interval
overlaps the cell's clipped segment is marked visited and recorded with
its signed near key and far key; others are skipped and NOT marked. -/
def recordCands (ctx : RayCtx) (s : Store) (segS segE : ℚ) :
    List Nat → List Nat → List Nat × List (Nat × ℚ × ℚ)
  | [], visited => (visited, [])
  | r :: rest, visited =>
    match ctx.bodyRaycast (s r).body with
    | none => recordCands ctx s segS segE rest visited
    | some (xmin, ymin, xmax, ymax) =>
      if segS ≤ xmax ∧ xmin ≤ segE then
        let visited' := insertId visited (s r).body.id
        let mnmx : ℚ × ℚ :=
          if ctx.leftward then
            (if xmax > segE then -(distTo ctx xmax ymax) else distTo ctx xmax ymax,
             distTo ctx xmin ymin)
          else
            (if xmin < segS then -(distTo ctx xmin ymin) else distTo ctx xmin ymin,
             distTo ctx xmax ymax)
        let res := recordCands ctx s segS segE rest visited'
        (res.1, (r, mnmx.1, mnmx.2) :: res.2)
      else recordCands ctx s segS segE rest visited

/-- Stable insertion into a list sorted ascending by the near key,
modelling Rust's stable `sort_by` comparator (world.rs lines 219-227). -/
def insortNear (p : Nat × ℚ × ℚ) : List (Nat × ℚ × ℚ) → List (Nat × ℚ × ℚ)
  | [] => [p]
  | q :: t => if q.2.1 < p.2.1 then q :: insortNear p t else p :: q :: t

/-- Stable sort ascending by the near key (world.rs lines 219-227). -/
def sortByNear (l : List (Nat × ℚ × ℚ)) : List (Nat × ℚ × ℚ) :=
  l.foldr insortNear []

/-- The callback loop over the sorted per-cell hits (world.rs lines
229-234): mark visited (idempotent), invoke the callback, stop the whole
ray cast if it returns true. -/
def runCallbacks (ctx : RayCtx) (s : Store) :
    List (Nat × ℚ × ℚ) → List Nat → List (Nat × ℚ × ℚ) →
    List Nat × List (Nat × ℚ × ℚ) × Bool
  | [], visited, trace => (visited, trace, false)
  | (r, mn, mx) :: rest, visited, trace =>
    let visited' := insertId visited (s r).body.id
    let trace' := trace ++ [(r, mn, mx)]
    if ctx.cb (s r) mn mx then (visited', trace', true)
    else runCallbacks ctx s rest visited' trace'

/-- The running state of one `World::raycast` call: the visited-id set,
the sequence of callback invocations so far, and whether the callback
stopped the cast. -/
structure RayAcc where
  visited : List Nat
  trace : List (Nat × ℚ × ℚ)
  stopped : Bool

/-- One traversed cell of `World::raycast` (world.rs lines 173-235):
clip the segment, gather candidates from both indexes filtered by group
mask and the visited set, record overlapping intersections (in popped
order), sort by near key, then run the callback loop.  When an earlier
cell already stopped the cast, nothing happens (the Rust `return`). -/
def processCell (ctx : RayCtx) (staticH dynamicH : SpatialHashing) (s : Store)
    (acc : RayAcc) (c : Int × Int) : RayAcc :=
  if acc.stopped then acc
  else
    let ss := segStart ctx c
    let se := segEnd ctx c
    let res := (staticH.get_on_index c ++ dynamicH.get_on_index c).filter
      (fun r => decide ((s r).body.group &&& ctx.mask ≠ 0)
        && !(acc.visited.contains (s r).body.id))
    let rec1 := recordCands ctx s ss se res.reverse acc.visited
    let out := runCallbacks ctx s (sortByNear rec1.2) rec1.1 acc.trace
    ⟨out.1, out.2.1, out.2.2⟩

/-- The cell-traversal loop of `World::raycast` (world.rs lines 171-235),
over the cell sequence produced by the external `grid_raycast`
collaborator. -/
def raycastRun (ctx : RayCtx) (staticH dynamicH : SpatialHashing) (s : Store)
    (cells : List (Int × Int)) : RayAcc :=
  cells.foldl (processCell ctx staticH dynamicH s) ⟨[], [], false⟩

def mySqrt : ℚ → ℚ := fun q => if q = 25 then 5 else if q = 100 then 10 else 0

def ctx3 : RayCtx :=
  { unit := 1, x0 := 10, y0 := 0, leftward := true, lineStart := 0, lineEnd := 10
    mask := 1, sqrtFn := mySqrt, bodyRaycast := fun _ => some (4, 8, 7, 4)
    cb := fun _ _ _ => false }

def store4 : Store := fun r => ⟨⟨r, 1, 1, PhysicType.Kinetic, false, unitLoc⟩, []⟩

def staticH3 : SpatialHashing := ⟨1, [((6, 0), 1)]⟩

def dynH3 : SpatialHashing := ⟨1, []⟩

def staticH5 : SpatialHashing := ⟨1, [((6, 0), 1), ((6, 0), 2)]⟩

def staticC10 : SpatialHashing := ⟨1, [((2, 0), 1), ((6, 0), 1)]⟩

def dynC4 : SpatialHashing := ⟨1, [((6, 0), 1)]⟩

theorem store_set_self (s : Store) (r : Nat) : Store.set s r (s r) = s := by
  funext r'
  unfold Store.set
  by_cases h : r' = r <;> simp [h]

theorem store_set_get_same (s : Store) (r : Nat) (e : Entity) :
    Store.set s r e r = e := by
  simp [Store.set]

theorem store_set_get_other (s : Store) (r r' : Nat) (e : Entity) (h : r' ≠ r) :
    Store.set s r e r' = s r' := by
  simp [Store.set, h]

theorem insert_next_id (C : Collab) (w : World) (s : Store) (r : Nat) :
    (World.insert C (w, s) r).1.next_id = w.next_id + 1 := by
  cases h : (s r).body.physicType <;> simp [World.insert, h]

theorem insert_store (C : Collab) (w : World) (s : Store) (r : Nat) :
    (World.insert C (w, s) r).2 =
      Store.set s r { s r with body := { (s r).body with id := w.next_id } } := by
  cases h : (s r).body.physicType <;> simp [World.insert, h]

theorem insertList_next_id (C : Collab) (rs : List Nat) (w : World) (s : Store) :
    (World.insertList C (w, s) rs).1.next_id = w.next_id + rs.length := by
  induction rs generalizing w s with
  | nil => simp [World.insertList]
  | cons r rest ih =>
    have hstep : World.insertList C (w, s) (r :: rest) =
        World.insertList C (World.insert C (w, s) r) rest := by
      simp [World.insertList]
    rw [hstep]
    rcases hp : World.insert C (w, s) r with ⟨w', s'⟩
    have h1 : w'.next_id = w.next_id + 1 := by
      have := insert_next_id C w s r
      rw [hp] at this
      exact this
    rw [ih w' s', h1, List.length_cons]
    omega

theorem insertList_store_notmem (C : Collab) (rs : List Nat) (w : World) (s : Store)
    (r : Nat) (h : r ∉ rs) :
    (World.insertList C (w, s) rs).2 r = s r := by
  induction rs generalizing w s with
  | nil => simp [World.insertList]
  | cons a t ih =>
    have hne : r ≠ a := fun hh => h (hh ▸ List.mem_cons_self a t)
    have hnt : r ∉ t := fun hh => h (List.mem_cons_of_mem a hh)
    have hstep : World.insertList C (w, s) (a :: t) =
        World.insertList C (World.insert C (w, s) a) t := by
      simp [World.insertList]
    rw [hstep]
    rcases hp : World.insert C (w, s) a with ⟨w', s'⟩
    have h2 : s' r = s r := by
      have := congrArg (fun x => x r) (congrArg Prod.snd hp)
      simp only at this
      rw [← this, insert_store, store_set_get_other _ _ _ _ hne]
    rw [ih w' s' hnt, h2]

/-- The k-th (0-indexed) distinct ref handed to a run of `insert` calls
starting from counter `n` ends up with id `n + k`. -/
theorem insertList_get_id (C : Collab) (rs : List Nat) (w : World) (s : Store)
    (k : Nat) (hk : k < rs.length) (hnodup : rs.Nodup) :
    ((World.insertList C (w, s) rs).2 (rs.get ⟨k, hk⟩)).body.id = w.next_id + k := by
  induction rs generalizing w s k with
  | nil => exact absurd hk (by simp)
  | cons r rest ih =>
    have hrmem : r ∉ rest := (List.nodup_cons.mp hnodup).1
    have hnd : rest.Nodup := (List.nodup_cons.mp hnodup).2
    have hstep : World.insertList C (w, s) (r :: rest) =
        World.insertList C (World.insert C (w, s) r) rest := by
      simp [World.insertList]
    rcases hp : World.insert C (w, s) r with ⟨w', s'⟩
    have hw1 : w'.next_id = w.next_id + 1 := by
      have := insert_next_id C w s r
      rw [hp] at this
      exact this
    have hs1 : s' r = { s r with body := { (s r).body with id := w.next_id } } := by
      have := congrArg (fun x => x r) (congrArg Prod.snd hp)
      simp only at this
      rw [← this, insert_store, store_set_get_same]
    match k with
    | 0 =>
      show ((World.insertList C (w, s) (r :: rest)).2 r).body.id = w.next_id + 0
      rw [hstep, hp, insertList_store_notmem C rest w' s' r hrmem, hs1]
      simp
    | Nat.succ k' =>
      have hk' : k' < rest.length := by
        simpa [Nat.succ_lt_succ_iff] using hk
      show ((World.insertList C (w, s) (r :: rest)).2 (rest.get ⟨k', hk'⟩)).body.id
          = w.next_id + (k' + 1)
      rw [hstep, hp, ih w' s' k' hk' hnd, hw1]
      omega

/-- C6: on a freshly constructed World, a sequence of `insert` calls
assigns the k-th (0-indexed) inserted entity the id k+1 — ids start at 1
and increase strictly by one per insertion — and the `next_id` counter
ends at length+1, never decremented or reused. -/
theorem claim_C6_ids (C : Collab) (u : ℚ) (s : Store) (rs : List Nat)
    (hnodup : rs.Nodup) (k : Nat) (hk : k < rs.length) :
    ((World.insertList C (World.new u, s) rs).2 (rs.get ⟨k, hk⟩)).body.id = k + 1 ∧
      (World.insertList C (World.new u, s) rs).1.next_id = rs.length + 1 := by
  constructor
  · rw [insertList_get_id C rs (World.new u) s k hk hnodup]
    simp [World.new]
    omega
  · rw [insertList_next_id]
    simp [World.new]
    omega

theorem claim_C6_ids_witness :
    ((World.insertList plainCollab (World.new 1, plainStore) [10, 20, 30]).2
        ([10, 20, 30].get ⟨1, by decide⟩)).body.id = 1 + 1 ∧
      (World.insertList plainCollab (World.new 1, plainStore) [10, 20, 30]).1.next_id
        = [10, 20, 30].length + 1 :=
  claim_C6_ids plainCollab 1 plainStore [10, 20, 30] (by decide) 1 (by decide)

/-- C9: `get_on_segment` fails loudly on every argument tuple: its body is
`assert!(false)`, so it never returns normally and never yields an empty
result. -/
theorem claim_C9_get_on_segment (mask : Nat) (x y angle length : ℚ) :
    World.get_on_segment mask x y angle length = Except.error "assertion failed: false" :=
  rfl

/-- Generalised induction for `apply_on_group`: provided the callback
preserves the group bitmask, the invocation sequence is exactly the
master-list refs whose group intersects the mask, in order. -/
theorem apply_on_group_go (cb : Entity → Entity) (mask : Nat)
    (hcb : ∀ e, (cb e).body.group = e.body.group)
    (l : List Nat) (s0 s : Store) (tr : List Nat)
    (hs : ∀ r, (s r).body.group = (s0 r).body.group) :
    (l.foldl
      (fun acc r =>
        let e := acc.1 r
        if e.body.group &&& mask ≠ 0 then (Store.set acc.1 r (cb e), acc.2 ++ [r])
        else acc)
      (s, tr)).2 =
      tr ++ l.filter (fun r => decide ((s0 r).body.group &&& mask ≠ 0)) := by
  induction l generalizing s tr with
  | nil => simp
  | cons r rest ih =>
    simp only [List.foldl_cons, List.filter_cons]
    by_cases h : (s r).body.group &&& mask ≠ 0
    · have h0 : (s0 r).body.group &&& mask ≠ 0 := by rw [← hs r]; exact h
      rw [if_pos h]
      have hs' : ∀ r', (Store.set s r (cb (s r)) r').body.group = (s0 r').body.group := by
        intro r'
        by_cases hr : r' = r
        · subst hr
          rw [store_set_get_same, hcb, hs]
        · rw [store_set_get_other _ _ _ _ hr, hs]
      rw [ih (Store.set s r (cb (s r))) (tr ++ [r]) hs']
      simp [h0]
    · have h0 : ¬ (s0 r).body.group &&& mask ≠ 0 := by rw [← hs r]; exact h
      rw [if_neg h]
      rw [ih s tr hs]
      simp [h0]

/-- C8 (amended): `apply_on_group` invokes the callback exactly on the
master-list entries whose group bitmask ANDed with the mask is non-zero,
in master-list order, with no spatial filtering — regardless of the death
flag (the source never consults `dead` here, so dead entities still in the
master list are visited too). -/
theorem claim_C8_apply_on_group (cb : Entity → Entity) (mask : Nat) (w : World) (s : Store)
    (hcb : ∀ e, (cb e).body.group = e.body.group) :
    (World.apply_on_group cb mask w s).2 =
      w.entity_cells.filter (fun r => decide ((s r).body.group &&& mask ≠ 0)) := by
  have := apply_on_group_go cb mask hcb w.entity_cells s s [] (fun _ => rfl)
  simpa [World.apply_on_group] using this

theorem claim_C8_apply_on_group_witness :
    (World.apply_on_group (fun e => e) 1 c8World c8Store).2 =
      c8World.entity_cells.filter (fun r => decide ((c8Store r).body.group &&& 1 ≠ 0)) :=
  claim_C8_apply_on_group (fun e => e) 1 c8World c8Store (fun _ => rfl)

/-- C8 counterexample to the claim as stated: an entity whose death flag
is set and whose group intersects the mask IS visited by
`apply_on_group` — the source never filters on `dead` there. -/
theorem claim_C8_counterexample :
    (World.apply_on_group (fun e => e) 1 c8World c8Store).2 = [7] ∧
      (c8Store 7).body.dead = true := by
  constructor
  · rfl
  · rfl

theorem flatMap_const_nil {α β : Type} (l : List α) :
    (l.flatMap fun _ => ([] : List β)) = [] := by
  induction l with
  | nil => rfl
  | cons a t ih => simp [List.flatMap_cons, ih]

theorem new_get_locally_nil (u : ℚ) (loc : Location) :
    (SpatialHashing.new u).get_locally loc = [] := by
  unfold SpatialHashing.get_locally SpatialHashing.get_on_index SpatialHashing.new
  simp [flatMap_const_nil]

theorem mem_get_locally_insert_new (u : ℚ) (loc : Location) (r : Nat)
    (h : cellsOf u loc ≠ []) :
    r ∈ ((SpatialHashing.new u).insert_locally loc r).get_locally loc := by
  obtain ⟨c, hc⟩ : ∃ c, c ∈ cellsOf u loc := by
    cases hcl : cellsOf u loc with
    | nil => exact absurd hcl h
    | cons a t => exact ⟨a, by simp [hcl]⟩
  unfold SpatialHashing.get_locally
  apply List.mem_flatMap.mpr
  refine ⟨c, ?_, ?_⟩
  · simpa [SpatialHashing.insert_locally, SpatialHashing.new] using hc
  · unfold SpatialHashing.get_on_index SpatialHashing.insert_locally SpatialHashing.new
    simp only [List.nil_append]
    apply List.mem_map.mpr
    refine ⟨(c, r), ?_, rfl⟩
    apply List.mem_filter.mpr
    refine ⟨List.mem_map.mpr ⟨c, hc, rfl⟩, by simp⟩

/-- A freshly inserted non-Static entity is discoverable through
`get_locally` before any update: `insert` puts it into the dynamic index
immediately (world.rs line 104). -/
theorem insert_dynamic_discoverable (C : Collab) (u : ℚ) (s : Store) (r : Nat) (mask : Nat)
    (htype : (s r).body.physicType ≠ PhysicType.Static)
    (hcells : cellsOf u (s r).body.loc ≠ [])
    (hgroup : (s r).body.group &&& mask ≠ 0)
    (hin : C.inLocation { (s r).body with id := 1 } (s r).body.loc = true) :
    r ∈ World.get_locally C (World.insert C (World.new u, s) r).1
        (World.insert C (World.new u, s) r).2 mask (s r).body.loc := by
  have hpt : (s r).body.physicType = PhysicType.Kinetic := by
    cases h : (s r).body.physicType
    · exact absurd h htype
    · rfl
  have hfst : (World.insert C (World.new u, s) r).1 =
      { World.new u with
          next_id := 2
          wall_map := C.modifyWallMap
            { s r with body := { (s r).body with id := 1 } } []
          entity_cells := [r]
          dynamic_hashmap := (SpatialHashing.new u).insert_locally (s r).body.loc r } := by
    simp [World.insert, hpt, World.new]
  have hsnd : (World.insert C (World.new u, s) r).2 =
      Store.set s r { s r with body := { (s r).body with id := 1 } } := by
    have := insert_store C (World.new u) s r
    simpa [World.new] using this
  rw [hfst, hsnd]
  unfold World.get_locally
  apply List.mem_filter.mpr
  constructor
  · apply List.mem_append.mpr
    right
    simpa using mem_get_locally_insert_new u (s r).body.loc r hcells
  · rw [store_set_get_same]
    simp only [Bool.and_eq_true, decide_eq_true_eq]
    exact ⟨hgroup, hin⟩

theorem rat_floor_eval (q : ℚ) : q.floor = ⌊q⌋ := rfl

theorem cellsOf_one_unitLoc : cellsOf 1 unitLoc = [(0, 0), (0, 1), (1, 0), (1, 1)] := by
  simp [cellsOf, cellRange, unitLoc, rat_floor_eval]
  decide

/-- C2 (amended): an entity with non-Static physic type handed to
`World::insert` is inserted into the dynamic index immediately (world.rs
line 104), so it IS discoverable via `get_locally` at its location right
after `insert`, before any update cycle runs. -/
theorem claim_C2_dynamic_discoverable (C : Collab) (u : ℚ) (s : Store) (r : Nat) (mask : Nat)
    (htype : (s r).body.physicType ≠ PhysicType.Static)
    (hcells : cellsOf u (s r).body.loc ≠ [])
    (hgroup : (s r).body.group &&& mask ≠ 0)
    (hin : C.inLocation { (s r).body with id := 1 } (s r).body.loc = true) :
    r ∈ World.get_locally C (World.insert C (World.new u, s) r).1
        (World.insert C (World.new u, s) r).2 mask (s r).body.loc :=
  insert_dynamic_discoverable C u s r mask htype hcells hgroup hin

theorem claim_C2_dynamic_discoverable_witness :
    5 ∈ World.get_locally plainCollab (World.insert plainCollab (World.new 1, plainStore) 5).1
        (World.insert plainCollab (World.new 1, plainStore) 5).2 1 (plainStore 5).body.loc :=
  claim_C2_dynamic_discoverable plainCollab 1 plainStore 5 1 (by decide)
    (by rw [show (plainStore 5).body.loc = unitLoc from rfl, cellsOf_one_unitLoc]; decide)
    (by decide) rfl

/-- C2 counterexample to the claim as stated: a freshly inserted
non-Static entity is discoverable via `get_locally` at its location
before any update cycle, and the dynamic index holds a reference to it
between `insert` and the next update's rebuild. -/
theorem claim_C2_counterexample :
    5 ∈ World.get_locally plainCollab (World.insert plainCollab (World.new 1, plainStore) 5).1
        (World.insert plainCollab (World.new 1, plainStore) 5).2 1 unitLoc ∧
      5 ∈ ((World.insert plainCollab (World.new 1, plainStore) 5).1.dynamic_hashmap.buckets.map
            (fun p => p.2)) ∧
      (plainStore 5).body.physicType ≠ PhysicType.Static := by
  refine ⟨?_, ?_, by decide⟩
  · exact insert_dynamic_discoverable plainCollab 1 plainStore 5 1 (by decide)
      (by rw [show (plainStore 5).body.loc = unitLoc from rfl, cellsOf_one_unitLoc]; decide)
      (by decide) rfl
  · have hb : (World.insert plainCollab (World.new 1, plainStore) 5).1.dynamic_hashmap.buckets
        = (cellsOf 1 unitLoc).map (fun c => (c, 5)) := by
      simp [World.insert, World.new, plainStore, mkEntity, SpatialHashing.insert_locally,
        SpatialHashing.new]
    rw [hb, cellsOf_one_unitLoc]
    decide

theorem step1_id (C : Collab) (dt : ℚ) (hhook : ∀ d e, C.updateHook d e = e)
    (l : List Nat) (s : Store) :
    l.foldl (fun st r => Store.set st r (C.updateHook dt (st r))) s = s := by
  have hf : (fun (st : Store) (r : Nat) => Store.set st r (C.updateHook dt (st r)))
      = fun st _ => st := by
    funext st r
    rw [hhook, store_set_self]
  rw [hf]
  induction l generalizing s with
  | nil => rfl
  | cons a t ih =>
    simp only [List.foldl_cons]
    exact ih s

theorem sweepDead_no_dead (deadFn : Nat → Bool) (l : List Nat)
    (h : ∀ r ∈ l, deadFn r = false) (i : Nat) :
    sweepDead deadFn l i = l := by
  have main : ∀ n i, l.length - i = n → sweepDead deadFn l i = l := by
    intro n
    induction n with
    | zero =>
      intro i hi
      rw [sweepDead]
      have hn : ¬ i < l.length := by omega
      simp [hn]
    | succ n ih =>
      intro i hi
      rw [sweepDead]
      have hlt : i < l.length := by omega
      have hd : deadFn (l.get ⟨i, hlt⟩) = false := h _ (l.get_mem i hlt)
      simp only [hlt, dif_pos, hd, Bool.false_eq_true, if_false]
      exact ih (i + 1) (by omega)
  exact main (l.length - i) i rfl

theorem filter_map_pair_replicate (M : List (Int × Int)) (c : Int × Int) (r : Nat) :
    (((M.map (fun c' => (c', r))).filter (fun p => decide (p.1 = c))).map (fun p => p.2))
      = List.replicate (M.count c) r := by
  induction M with
  | nil => rfl
  | cons a t ih =>
    simp only [List.map_cons, List.filter_cons]
    by_cases hac : a = c
    · subst hac
      simp [ih, List.count_cons, List.replicate_succ]
    · simp [hac, ih, List.count_cons]

theorem get_locally_single (u : ℚ) (locQ locE : Location) (r : Nat) :
    (SpatialHashing.mk u ((cellsOf u locE).map (fun c => (c, r)))).get_locally locQ
      = List.replicate (overlapVisits u locQ locE) r := by
  unfold SpatialHashing.get_locally SpatialHashing.get_on_index overlapVisits
  simp only
  generalize cellsOf u locQ = L
  induction L with
  | nil => rfl
  | cons c t ih =>
    simp only [List.flatMap_cons, List.map_cons, List.sum_cons]
    rw [filter_map_pair_replicate, ih, List.replicate_add]

theorem get_locally_nil_buckets (h : SpatialHashing) (loc : Location)
    (hb : h.buckets = []) : h.get_locally loc = [] := by
  unfold SpatialHashing.get_locally SpatialHashing.get_on_index
  rw [hb]
  simp [flatMap_const_nil]

theorem insert_kinetic_eq (C : Collab) (w : World) (s : Store) (r : Nat)
    (h : (s r).body.physicType ≠ PhysicType.Static) :
    World.insert C (w, s) r
      = ({ w with
            next_id := w.next_id + 1
            wall_map := C.modifyWallMap
              { s r with body := { (s r).body with id := w.next_id } } w.wall_map
            entity_cells := w.entity_cells ++ [r]
            dynamic_hashmap := w.dynamic_hashmap.insert_locally (s r).body.loc r },
         Store.set s r { s r with body := { (s r).body with id := w.next_id } }) := by
  have hpt : (s r).body.physicType = PhysicType.Kinetic := by
    cases hh : (s r).body.physicType
    · exact absurd hh h
    · rfl
  simp [World.insert, hpt]

theorem step4_cons_empty_indexes (C : Collab) (r : Nat) (rest : List Nat) (w : World)
    (s : Store) (hst : w.static_hashmap.buckets = []) (hdy : w.dynamic_hashmap.buckets = []) :
    step4 C (r :: rest) w s
      = step4 C rest
          { w with dynamic_hashmap := w.dynamic_hashmap.insert_locally (s r).body.loc r }
          s := by
  have hcands : w.static_hashmap.get_locally (s r).body.loc
      ++ w.dynamic_hashmap.get_locally (s r).body.loc = [] := by
    rw [get_locally_nil_buckets _ _ hst, get_locally_nil_buckets _ _ hdy]
    rfl
  simp only [step4, World.apply_locally_collide, hcands, processCands, store_set_self]

theorem step4_cons_static_empty (C : Collab) (r : Nat) (rest : List Nat) (w : World)
    (s : Store) (e' : Entity) (s' : Store)
    (hst : w.static_hashmap.buckets = [])
    (hproc : processCands C r (s r).body.loc (s r).body.mask
        (w.dynamic_hashmap.get_locally (s r).body.loc) (s r) s = Except.ok (e', s')) :
    step4 C (r :: rest) w s
      = step4 C rest
          { w with dynamic_hashmap :=
              w.dynamic_hashmap.insert_locally ((Store.set s' r e') r).body.loc r }
          (Store.set s' r e') := by
  have hcands : w.static_hashmap.get_locally (s r).body.loc
      ++ w.dynamic_hashmap.get_locally (s r).body.loc
      = w.dynamic_hashmap.get_locally (s r).body.loc := by
    rw [get_locally_nil_buckets _ _ hst]
    rfl
  simp only [step4, World.apply_locally_collide, hcands, hproc]

theorem update_two_kinetic (C : Collab) (dt u : ℚ) (s0 : Store) (ra rb : Nat)
    (hne : ra ≠ rb)
    (hhook : ∀ d e, C.updateHook d e = e)
    (hAt : (s0 ra).body.physicType ≠ PhysicType.Static)
    (hBt : (s0 rb).body.physicType ≠ PhysicType.Static)
    (hAd : (s0 ra).body.dead = false)
    (hBd : (s0 rb).body.dead = false)
    (eB : Entity) (sB : Store)
    (hproc : processCands C rb (s0 rb).body.loc (s0 rb).body.mask
        (List.replicate (overlapVisits u (s0 rb).body.loc (s0 ra).body.loc) ra)
        { s0 rb with body := { (s0 rb).body with id := 2 } }
        (Store.set (Store.set s0 ra { s0 ra with body := { (s0 ra).body with id := 1 } }) rb
          { s0 rb with body := { (s0 rb).body with id := 2 } })
        = Except.ok (eB, sB)) :
    ∃ w', World.update C dt (World.insertList C (World.new u, s0) [ra, rb]).1
        (World.insertList C (World.new u, s0) [ra, rb]).2
      = Except.ok (w', Store.set sB rb eB) := by
  have hne' : rb ≠ ra := Ne.symm hne
  have hBt' : ((Store.set s0 ra { s0 ra with body := { (s0 ra).body with id := 1 } }) rb).body.physicType
      ≠ PhysicType.Static := by
    rw [store_set_get_other _ _ _ _ hne']
    exact hBt
  have hins : World.insertList C (World.new u, s0) [ra, rb]
      = ({ unit := u
           time := 0
           next_id := 3
           wall_map := C.modifyWallMap { s0 rb with body := { (s0 rb).body with id := 2 } }
             (C.modifyWallMap { s0 ra with body := { (s0 ra).body with id := 1 } } [])
           entity_cells := [ra, rb]
           static_hashmap := SpatialHashing.new u
           dynamic_hashmap := ((SpatialHashing.new u).insert_locally
             (s0 ra).body.loc ra).insert_locally (s0 rb).body.loc rb },
         Store.set (Store.set s0 ra { s0 ra with body := { (s0 ra).body with id := 1 } }) rb
           { s0 rb with body := { (s0 rb).body with id := 2 } }) := by
    simp only [World.insertList, List.foldl_cons, List.foldl_nil]
    rw [insert_kinetic_eq C (World.new u) s0 ra hAt]
    simp only [World.new]
    rw [insert_kinetic_eq C _ _ rb hBt']
    simp [store_set_get_other _ _ _ _ hne']
  have hS1ra : (Store.set (Store.set s0 ra
      { s0 ra with body := { (s0 ra).body with id := 1 } }) rb
      { s0 rb with body := { (s0 rb).body with id := 2 } }) ra
      = { s0 ra with body := { (s0 ra).body with id := 1 } } := by
    rw [store_set_get_other _ _ _ _ hne, store_set_get_same]
  have hS1rb : (Store.set (Store.set s0 ra
      { s0 ra with body := { (s0 ra).body with id := 1 } }) rb
      { s0 rb with body := { (s0 rb).body with id := 2 } }) rb
      = { s0 rb with body := { (s0 rb).body with id := 2 } } := store_set_get_same _ _ _
  have hdead : ∀ r ∈ [ra, rb], ((Store.set (Store.set s0 ra
      { s0 ra with body := { (s0 ra).body with id := 1 } }) rb
      { s0 rb with body := { (s0 rb).body with id := 2 } }) r).body.dead = false := by
    intro r hr
    rcases List.mem_cons.mp hr with h | hr2
    · subst h
      rw [hS1ra]
      simpa using hAd
    · have h : r = rb := by simpa using hr2
      subst h
      rw [hS1rb]
      simpa using hBd
  apply Exists.intro
  simp only [hins]
  simp only [World.update]
  rw [step1_id C dt hhook]
  rw [sweepDead_no_dead _ _ hdead 0]
  rw [step4_cons_empty_indexes C ra [rb] _ _ rfl rfl]
  rw [show ((((SpatialHashing.new u).insert_locally (s0 ra).body.loc ra).insert_locally
        (s0 rb).body.loc rb).clear.insert_locally
        ((Store.set (Store.set s0 ra { s0 ra with body := { (s0 ra).body with id := 1 } }) rb
          { s0 rb with body := { (s0 rb).body with id := 2 } }) ra).body.loc ra)
      = SpatialHashing.mk u ((cellsOf u (s0 ra).body.loc).map (fun c => (c, ra))) from by
    rw [hS1ra]
    simp [SpatialHashing.clear, SpatialHashing.insert_locally, SpatialHashing.new]]
  rw [step4_cons_static_empty C rb [] _ _ eB sB rfl (by
    rw [hS1rb]
    simp only [get_locally_single]
    simpa using hproc)]
  simp only [step4]
  rfl

/-- C1 (amended): in one update of a world holding exactly two non-Static
live entities A (inserted first) and B, with A's group intersecting B's
collision mask, A overlapping B's query location, the bodies colliding,
and the query over B's location visiting A's indexed cells exactly once
(`overlapVisits = 1`), the collision callback fires exactly once on each
side: A's log gains exactly B's id and B's log gains exactly A's id. -/
theorem claim_C1_collision_both_once (C : Collab) (dt u : ℚ) (s0 : Store) (ra rb : Nat)
    (hne : ra ≠ rb)
    (hhook : ∀ d e, C.updateHook d e = e)
    (hrid : ∀ x y, (C.resolveCollision x y).id = x.id)
    (hAt : (s0 ra).body.physicType ≠ PhysicType.Static)
    (hBt : (s0 rb).body.physicType ≠ PhysicType.Static)
    (hAd : (s0 ra).body.dead = false)
    (hBd : (s0 rb).body.dead = false)
    (hgroup : (s0 ra).body.group &&& (s0 rb).body.mask ≠ 0)
    (hin : C.inLocation { (s0 ra).body with id := 1 } (s0 rb).body.loc = true)
    (hcollide : C.collide { (s0 rb).body with id := 2 } { (s0 ra).body with id := 1 } = true)
    (hcount : overlapVisits u (s0 rb).body.loc (s0 ra).body.loc = 1) :
    ∃ w' s', World.update C dt (World.insertList C (World.new u, s0) [ra, rb]).1
        (World.insertList C (World.new u, s0) [ra, rb]).2 = Except.ok (w', s') ∧
      (s' ra).collisionLog = (s0 ra).collisionLog ++ [2] ∧
      (s' rb).collisionLog = (s0 rb).collisionLog ++ [1] := by
  have hS1ra : (Store.set (Store.set s0 ra
      { s0 ra with body := { (s0 ra).body with id := 1 } }) rb
      { s0 rb with body := { (s0 rb).body with id := 2 } }) ra
      = { s0 ra with body := { (s0 ra).body with id := 1 } } := by
    rw [store_set_get_other _ _ _ _ hne, store_set_get_same]
  have hgd : decide ((s0 ra).body.group &&& (s0 rb).body.mask ≠ 0) = true :=
    decide_eq_true hgroup
  have hproc : processCands C rb (s0 rb).body.loc (s0 rb).body.mask
      (List.replicate (overlapVisits u (s0 rb).body.loc (s0 ra).body.loc) ra)
      { s0 rb with body := { (s0 rb).body with id := 2 } }
      (Store.set (Store.set s0 ra { s0 ra with body := { (s0 ra).body with id := 1 } }) rb
        { s0 rb with body := { (s0 rb).body with id := 2 } })
      = Except.ok
          ({ body := C.resolveCollision { (s0 rb).body with id := 2 }
               { (s0 ra).body with id := 1 }
             collisionLog := (s0 rb).collisionLog ++ [1] },
           Store.set (Store.set (Store.set s0 ra
               { s0 ra with body := { (s0 ra).body with id := 1 } }) rb
               { s0 rb with body := { (s0 rb).body with id := 2 } }) ra
             { body := C.resolveCollision { (s0 ra).body with id := 1 }
                 (C.resolveCollision { (s0 rb).body with id := 2 }
                   { (s0 ra).body with id := 1 })
               collisionLog := (s0 ra).collisionLog ++ [2] }) := by
    rw [hcount, List.replicate_one]
    simp only [processCands]
    rw [if_neg hne]
    simp only [hS1ra, hgd, hin, hcollide, hrid, Bool.and_self, if_true]
  obtain ⟨w', hupd⟩ := update_two_kinetic C dt u s0 ra rb hne hhook hAt hBt hAd hBd _ _ hproc
  refine ⟨w', _, hupd, ?_, ?_⟩
  · rw [store_set_get_other _ _ _ _ hne, store_set_get_same]
  · rw [store_set_get_same]

theorem cellsOf_one_smallLoc : cellsOf 1 smallLoc = [(0, 0)] := by
  simp [cellsOf, cellRange, smallLoc, rat_floor_eval]
  norm_num
  decide

theorem cellsOf_one_wideLoc : cellsOf 1 wideLoc = [(0, 0), (1, 0)] := by
  simp [cellsOf, cellRange, wideLoc, rat_floor_eval]
  norm_num
  decide

theorem claim_C1_collision_both_once_witness :
    ∃ w' s', World.update plainCollab 1 (World.insertList plainCollab (World.new 1, c1Store) [1, 2]).1
        (World.insertList plainCollab (World.new 1, c1Store) [1, 2]).2 = Except.ok (w', s') ∧
      (s' 1).collisionLog = (c1Store 1).collisionLog ++ [2] ∧
      (s' 2).collisionLog = (c1Store 2).collisionLog ++ [1] :=
  claim_C1_collision_both_once plainCollab 1 1 c1Store 1 2 (by decide) (fun _ _ => rfl)
    (fun _ _ => rfl) (by decide) (by decide) (by decide) (by decide) (by decide) rfl rfl
    (by
      show overlapVisits 1 smallLoc smallLoc = 1
      rw [overlapVisits, cellsOf_one_smallLoc]
      decide)

/-- C1 counterexample to the claim as stated: two overlapping non-Static
entities whose bounding regions span TWO shared grid cells.  The spatial
index lists the earlier entity once per overlapped cell, and
`apply_locally` does not de-duplicate across cells (spec §4.1), so one
update invokes `on_collision` TWICE on each side, not exactly once:
A's log ends as [2,2] and B's as [1,1]. -/
theorem claim_C1_counterexample :
    ∃ w' s', World.update plainCollab 1
        (World.insertList plainCollab (World.new 1, c1wStore) [1, 2]).1
        (World.insertList plainCollab (World.new 1, c1wStore) [1, 2]).2
        = Except.ok (w', s') ∧
      (s' 1).collisionLog = [2, 2] ∧ (s' 2).collisionLog = [1, 1] ∧
      overlapVisits 1 (c1wStore 2).body.loc (c1wStore 1).body.loc = 2 := by
  have hov : overlapVisits 1 (c1wStore 2).body.loc (c1wStore 1).body.loc = 2 := by
    show overlapVisits 1 wideLoc wideLoc = 2
    rw [overlapVisits, cellsOf_one_wideLoc]
    decide
  have hproc : processCands plainCollab 2 (c1wStore 2).body.loc (c1wStore 2).body.mask
      (List.replicate (overlapVisits 1 (c1wStore 2).body.loc (c1wStore 1).body.loc) 1)
      { c1wStore 2 with body := { (c1wStore 2).body with id := 2 } }
      (Store.set (Store.set c1wStore 1 { c1wStore 1 with body := { (c1wStore 1).body with id := 1 } }) 2
        { c1wStore 2 with body := { (c1wStore 2).body with id := 2 } })
      = Except.ok
          (⟨{ (c1wStore 2).body with id := 2 }, [1, 1]⟩,
           Store.set
             (Store.set
               (Store.set (Store.set c1wStore 1
                   { c1wStore 1 with body := { (c1wStore 1).body with id := 1 } }) 2
                 { c1wStore 2 with body := { (c1wStore 2).body with id := 2 } })
               1 ⟨{ (c1wStore 1).body with id := 1 }, [2]⟩)
             1 ⟨{ (c1wStore 1).body with id := 1 }, [2, 2]⟩) := by
    rw [hov]
    rfl
  obtain ⟨w', hupd⟩ := update_two_kinetic plainCollab 1 1 c1wStore 1 2 (by decide)
    (fun _ _ => rfl) (by decide) (by decide) (by decide) (by decide) _ _ hproc
  exact ⟨w', _, hupd, rfl, rfl, hov⟩

theorem insert_static_eq (C : Collab) (w : World) (s : Store) (r : Nat)
    (h : (s r).body.physicType = PhysicType.Static) :
    World.insert C (w, s) r
      = ({ w with
            next_id := w.next_id + 1
            wall_map := C.modifyWallMap
              { s r with body := { (s r).body with id := w.next_id } } w.wall_map
            entity_cells := w.entity_cells ++ [r]
            static_hashmap := w.static_hashmap.insert_locally (s r).body.loc r },
         Store.set s r { s r with body := { (s r).body with id := w.next_id } }) := by
  simp [World.insert, h]

theorem overlapVisits_one_unitLoc : overlapVisits 1 unitLoc unitLoc = 4 := by
  rw [overlapVisits, cellsOf_one_unitLoc]
  decide

/-- C7 counterexample to the claim as stated: a single Static entity at
its inserted location IS visited as its own collision candidate in step 4
of the next update (the static index lists it at cells overlapping its
own query location), and the mutable borrow it already holds makes the
visit a re-entrant `borrow_mut` — the pass fails fast instead of
completing. -/
theorem claim_C7_counterexample :
    World.update plainCollab 1 (World.insert plainCollab (World.new 1, staticStore) 7).1
      (World.insert plainCollab (World.new 1, staticStore) 7).2 = Except.error () ∧
    (staticStore 7).body.physicType = PhysicType.Static := by
  refine ⟨?_, rfl⟩
  rw [insert_static_eq plainCollab (World.new 1) staticStore 7 rfl]
  simp only [World.new]
  simp only [World.update]
  rw [step1_id plainCollab 1 (fun _ _ => rfl)]
  rw [sweepDead_no_dead _ _ (by
    intro r hr
    have : r = 7 := by simpa using hr
    subst this
    rw [store_set_get_same]
    rfl) 0]
  rw [show (((SpatialHashing.new 1).insert_locally (staticStore 7).body.loc 7)
      = SpatialHashing.mk 1 ((cellsOf 1 (staticStore 7).body.loc).map (fun c => (c, 7)))) from by
    simp [SpatialHashing.insert_locally, SpatialHashing.new]]
  simp only [List.nil_append]
  simp only [step4, World.apply_locally_collide, store_set_get_same]
  rw [get_locally_single, get_locally_nil_buckets _ _ rfl, List.append_nil]
  rw [show ((staticStore 7).body.loc : Location) = unitLoc from rfl,
      overlapVisits_one_unitLoc]
  simp [processCands, List.replicate_succ]

theorem processCands_ok_of_ne (C : Collab) (r : Nat) (loc : Location) (mask : Nat) :
    ∀ (l : List Nat) (e : Entity) (s : Store), (∀ c ∈ l, c ≠ r) →
      ∃ p, processCands C r loc mask l e s = Except.ok p := by
  intro l
  induction l with
  | nil => exact fun e s _ => ⟨(e, s), rfl⟩
  | cons c rest ih =>
    intro e s hne
    have hc : c ≠ r := hne c (List.mem_cons_self c rest)
    have hrest : ∀ c' ∈ rest, c' ≠ r := fun c' hc' => hne c' (List.mem_cons_of_mem c hc')
    simp only [processCands, if_neg hc]
    split
    · split
      · exact ih _ _ hrest
      · exact ih _ _ hrest
    · exact ih _ _ hrest

theorem mem_get_locally_ref (h : SpatialHashing) (loc : Location) (c : Nat)
    (hc : c ∈ h.get_locally loc) : ∃ p ∈ h.buckets, p.2 = c := by
  unfold SpatialHashing.get_locally at hc
  obtain ⟨cell, _, hcell⟩ := List.mem_flatMap.mp hc
  unfold SpatialHashing.get_on_index at hcell
  obtain ⟨p, hp, hpc⟩ := List.mem_map.mp hcell
  exact ⟨p, (List.mem_filter.mp hp).1, hpc⟩

theorem step4_ok_of_no_self (C : Collab) :
    ∀ (l : List Nat) (w : World) (s : Store),
      w.static_hashmap.buckets = [] →
      l.Nodup →
      (∀ p ∈ w.dynamic_hashmap.buckets, p.2 ∉ l) →
      ∃ q, step4 C l w s = Except.ok q := by
  intro l
  induction l with
  | nil => exact fun w s _ _ _ => ⟨(w, s), rfl⟩
  | cons r rest ih =>
    intro w s hst hnd hdyn
    have hcand : ∀ c ∈ w.static_hashmap.get_locally (s r).body.loc
        ++ w.dynamic_hashmap.get_locally (s r).body.loc, c ≠ r := by
      intro c hc
      rcases List.mem_append.mp hc with hcs | hcd
      · rw [get_locally_nil_buckets _ _ hst] at hcs
        exact absurd hcs (List.not_mem_nil c)
      · obtain ⟨p, hp, hpc⟩ := mem_get_locally_ref _ _ _ hcd
        intro hcr
        exact hdyn p hp (by rw [hpc, hcr]; exact List.mem_cons_self r rest)
    obtain ⟨⟨e', s'⟩, hp⟩ := processCands_ok_of_ne C r (s r).body.loc (s r).body.mask
      (w.static_hashmap.get_locally (s r).body.loc
        ++ w.dynamic_hashmap.get_locally (s r).body.loc) (s r) s hcand
    have hstep : step4 C (r :: rest) w s
        = step4 C rest
            { w with dynamic_hashmap :=
                w.dynamic_hashmap.insert_locally ((Store.set s' r e') r).body.loc r }
            (Store.set s' r e') := by
      simp only [step4, World.apply_locally_collide, hp]
    rw [hstep]
    apply ih
    · exact hst
    · exact (List.nodup_cons.mp hnd).2
    · intro p hp'
      simp only [SpatialHashing.insert_locally] at hp'
      rcases List.mem_append.mp hp' with hold | hnew
      · intro hmem
        exact hdyn p hold (List.mem_cons_of_mem r hmem)
      · obtain ⟨cell, _, hcp⟩ := List.mem_map.mp hnew
        rw [← hcp]
        exact (List.nodup_cons.mp hnd).1

/-- C7 (amended): a non-Static entity is never visited as its own
collision candidate during the update pass — the dynamic index is
rebuilt behind the iteration, so the current entity is not yet present —
and the pass completes with no re-entrant mutable borrow, provided no
master-list ref sits in the static index (static index empty) and the
master list has no duplicate refs.  A Static entity, by contrast, IS its
own candidate and the pass fails fast with a re-entrant `borrow_mut`
error (see the companion counterexample). -/
theorem claim_C7_no_self_visit (C : Collab) (dt : ℚ) (w : World) (s : Store)
    (hhook : ∀ d e, C.updateHook d e = e)
    (hdead : ∀ r ∈ w.entity_cells, (s r).body.dead = false)
    (hnodup : w.entity_cells.Nodup)
    (hstatic : w.static_hashmap.buckets = []) :
    ∃ p, World.update C dt w s = Except.ok p := by
  simp only [World.update]
  rw [step1_id C dt hhook]
  rw [sweepDead_no_dead _ _ hdead 0]
  exact step4_ok_of_no_self C w.entity_cells _ s hstatic hnodup (fun p hp => by
    simp [SpatialHashing.clear] at hp)

theorem claim_C7_no_self_visit_witness :
    ∃ p, World.update plainCollab 1 { World.new 1 with entity_cells := [4] } plainStore
      = Except.ok p :=
  claim_C7_no_self_visit plainCollab 1 { World.new 1 with entity_cells := [4] } plainStore
    (fun _ _ => rfl) (fun r _ => rfl) (by decide) rfl

theorem recordCands_mem_spec (ctx : RayCtx) (s : Store) (segS segE : ℚ) :
    ∀ (l visited : List Nat) (r : Nat) (mn mx : ℚ),
      (r, mn, mx) ∈ (recordCands ctx s segS segE l visited).2 →
      r ∈ l ∧ ∃ x1 y1 x2 y2, ctx.bodyRaycast (s r).body = some (x1, y1, x2, y2) ∧
        (segS ≤ x2 ∧ x1 ≤ segE) ∧
        mx = (if ctx.leftward = true then distTo ctx x1 y1 else distTo ctx x2 y2) ∧
        mn = (if ctx.leftward = true then
                (if x2 > segE then -(distTo ctx x2 y2) else distTo ctx x2 y2)
              else (if x1 < segS then -(distTo ctx x1 y1) else distTo ctx x1 y1)) := by
  intro l
  induction l with
  | nil =>
    intro visited r mn mx h
    simp [recordCands] at h
  | cons a t ih =>
    intro visited r mn mx h
    simp only [recordCands] at h
    split at h
    · obtain ⟨hm, rest⟩ := ih _ r mn mx h
      exact ⟨List.mem_cons_of_mem a hm, rest⟩
    · next x xmin ymin xmax ymax heq =>
      split at h
      · next hov =>
        simp only [] at h
        rcases List.mem_cons.mp h with hhd | htl
        · simp only [Prod.mk.injEq] at hhd
          obtain ⟨hr, hmn, hmx⟩ := hhd
          subst hr
          refine ⟨List.mem_cons_self _ _, xmin, ymin, xmax, ymax, heq, hov, ?_, ?_⟩
          · rw [hmx]
            cases hlw : ctx.leftward <;> simp [hlw]
          · rw [hmn]
            cases hlw : ctx.leftward <;> simp [hlw]
        · obtain ⟨hm, rest⟩ := ih _ r mn mx htl
          exact ⟨List.mem_cons_of_mem a hm, rest⟩
      · obtain ⟨hm, rest⟩ := ih _ r mn mx h
        exact ⟨List.mem_cons_of_mem a hm, rest⟩

theorem runCallbacks_trace_mem (ctx : RayCtx) (s : Store) :
    ∀ (l : List (Nat × ℚ × ℚ)) (visited : List Nat) (trace : List (Nat × ℚ × ℚ))
      (x : Nat × ℚ × ℚ), x ∈ (runCallbacks ctx s l visited trace).2.1 →
      x ∈ trace ∨ x ∈ l := by
  intro l
  induction l with
  | nil =>
    intro visited trace x h
    simp only [runCallbacks] at h
    exact Or.inl h
  | cons p rest ih =>
    intro visited trace x h
    obtain ⟨r, mn, mx⟩ := p
    simp only [runCallbacks] at h
    split at h
    · simp only at h
      rcases List.mem_append.mp h with ht | hx
      · exact Or.inl ht
      · have hx' : x = (r, mn, mx) := by simpa using hx
        exact Or.inr (hx' ▸ List.mem_cons_self _ _)
    · rcases ih _ _ x h with ht | hl
      · rcases List.mem_append.mp ht with ht' | hx
        · exact Or.inl ht'
        · have hx' : x = (r, mn, mx) := by simpa using hx
          exact Or.inr (hx' ▸ List.mem_cons_self _ _)
      · exact Or.inr (List.mem_cons_of_mem _ hl)

theorem insortNear_perm (p : Nat × ℚ × ℚ) :
    ∀ l : List (Nat × ℚ × ℚ), (insortNear p l).Perm (p :: l) := by
  intro l
  induction l with
  | nil => exact List.Perm.refl _
  | cons q t ih =>
    simp only [insortNear]
    split
    · exact ((ih.cons q).trans (List.Perm.swap p q t))
    · exact List.Perm.refl _

theorem sortByNear_perm (l : List (Nat × ℚ × ℚ)) : (sortByNear l).Perm l := by
  induction l with
  | nil => exact List.Perm.refl _
  | cons p t ih =>
    have : sortByNear (p :: t) = insortNear p (sortByNear t) := rfl
    rw [this]
    exact (insortNear_perm p (sortByNear t)).trans (ih.cons p)

/-- C3 (amended): in the leftward branch (`|angle| > π/2`), every hit this
cell contributes to the callback sequence carries
`near = distance(origin,(x_max,y_max))` — negated exactly when
`x_max > segment_end` — and `far = distance(origin,(x_min,y_min))`:
relative to the spec's sentence the two interval endpoints are swapped,
and the negation is triggered by the higher-x point `x_max` passing the
segment end. -/
theorem claim_C3_leftward_near_far (ctx : RayCtx) (sH dH : SpatialHashing) (s : Store)
    (acc : RayAcc) (c : Int × Int) (r : Nat) (mn mx : ℚ)
    (hlw : ctx.leftward = true)
    (hmem : (r, mn, mx) ∈ (processCell ctx sH dH s acc c).trace)
    (hnew : (r, mn, mx) ∉ acc.trace) :
    ∃ x1 y1 x2 y2, ctx.bodyRaycast (s r).body = some (x1, y1, x2, y2) ∧
      segStart ctx c ≤ x2 ∧ x1 ≤ segEnd ctx c ∧
      mn = (if x2 > segEnd ctx c then -(distTo ctx x2 y2) else distTo ctx x2 y2) ∧
      mx = distTo ctx x1 y1 := by
  by_cases hst : acc.stopped
  · rw [processCell, if_pos hst] at hmem
    exact absurd hmem hnew
  · rw [processCell, if_neg hst] at hmem
    simp only at hmem
    rcases runCallbacks_trace_mem ctx s _ _ _ _ hmem with ht | hs'
    · exact absurd ht hnew
    · have hh := (sortByNear_perm _).mem_iff.mp hs'
      obtain ⟨_, x1, y1, x2, y2, hbr, hov, hmx, hmn⟩ :=
        recordCands_mem_spec ctx s (segStart ctx c) (segEnd ctx c) _ _ r mn mx hh
      rw [hlw] at hmx hmn
      simp only [if_true] at hmx hmn
      exact ⟨x1, y1, x2, y2, hbr, hov.1, hov.2, hmn, hmx⟩

theorem processCell_c3_eval :
    processCell ctx3 staticH3 dynH3 store4 ⟨[], [], false⟩ (6, 0)
      = ⟨[1], [(1, 5, 10)], false⟩ := by
  norm_num [processCell, segStart, segEnd, ctx3, staticH3, dynH3, store4,
    SpatialHashing.get_on_index, recordCands, insertId, distTo, mySqrt,
    sortByNear, insortNear, runCallbacks, max_def, min_def]

theorem claim_C3_leftward_near_far_witness :
    ∃ x1 y1 x2 y2, ctx3.bodyRaycast (store4 1).body = some (x1, y1, x2, y2) ∧
      segStart ctx3 (6, 0) ≤ x2 ∧ x1 ≤ segEnd ctx3 (6, 0) ∧
      (5 : ℚ) = (if x2 > segEnd ctx3 (6, 0) then -(distTo ctx3 x2 y2) else distTo ctx3 x2 y2) ∧
      (10 : ℚ) = distTo ctx3 x1 y1 :=
  claim_C3_leftward_near_far ctx3 staticH3 dynH3 store4 ⟨[], [], false⟩ (6, 0) 1 5 10 rfl
    (by rw [processCell_c3_eval]; simp) (by simp)

/-- C3 counterexample to the claim as stated: for a leftward ray with
origin (10,0) and a candidate whose interval is (4,8)-(7,4), the recorded
near key is 5 = distance(origin,(x_max,y_max)), but the claim's formula
distance(origin,(x_min,y_min)) gives 10 ≠ 5 — near and far are the claim's
two values swapped. -/
theorem claim_C3_counterexample :
    (processCell ctx3 staticH3 dynH3 store4 ⟨[], [], false⟩ (6, 0)).trace = [(1, 5, 10)] ∧
    ctx3.bodyRaycast (store4 1).body = some (4, 8, 7, 4) ∧
    ctx3.leftward = true ∧
    segStart ctx3 (6, 0) ≤ 7 ∧ (4 : ℚ) ≤ segEnd ctx3 (6, 0) ∧
    distTo ctx3 4 8 = 10 ∧ (5 : ℚ) ≠ 10 := by
  refine ⟨by rw [processCell_c3_eval], rfl, rfl, ?_, ?_, ?_, by norm_num⟩
  · norm_num [segStart, ctx3, max_def]
  · norm_num [segEnd, ctx3, min_def]
  · norm_num [distTo, ctx3, mySqrt]

theorem runCallbacks_spec (ctx : RayCtx) (s : Store) :
    ∀ (l : List (Nat × ℚ × ℚ)) (visited : List Nat) (trace : List (Nat × ℚ × ℚ)),
      (∀ x ∈ trace, ctx.cb (s x.1) x.2.1 x.2.2 = false) →
      ((runCallbacks ctx s l visited trace).2.2 = false →
        ∀ x ∈ (runCallbacks ctx s l visited trace).2.1,
          ctx.cb (s x.1) x.2.1 x.2.2 = false) ∧
      ((runCallbacks ctx s l visited trace).2.2 = true →
        ∀ x ∈ (runCallbacks ctx s l visited trace).2.1.dropLast,
          ctx.cb (s x.1) x.2.1 x.2.2 = false) := by
  intro l
  induction l with
  | nil =>
    intro visited trace htr
    simp only [runCallbacks]
    exact ⟨fun _ => htr, fun h => absurd h (by simp)⟩
  | cons p rest ih =>
    intro visited trace htr
    obtain ⟨r, mn, mx⟩ := p
    by_cases hcb : ctx.cb (s r) mn mx = true
    · simp only [runCallbacks, hcb, if_true]
      constructor
      · intro h
        exact absurd h (by simp)
      · intro _ x hx
        rw [List.dropLast_concat] at hx
        exact htr x hx
    · have hcb' : ctx.cb (s r) mn mx = false := by
        cases hq : ctx.cb (s r) mn mx
        · rfl
        · exact absurd hq hcb
      simp only [runCallbacks, hcb', Bool.false_eq_true, if_false]
      apply ih
      intro x hx
      rcases List.mem_append.mp hx with h1 | h2
      · exact htr x h1
      · have : x = (r, mn, mx) := by simpa using h2
        rw [this]
        exact hcb'

theorem processCell_cb_spec (ctx : RayCtx) (sH dH : SpatialHashing) (s : Store)
    (acc : RayAcc) (c : Int × Int)
    (h1 : acc.stopped = false → ∀ x ∈ acc.trace, ctx.cb (s x.1) x.2.1 x.2.2 = false)
    (h2 : acc.stopped = true → ∀ x ∈ acc.trace.dropLast, ctx.cb (s x.1) x.2.1 x.2.2 = false) :
    ((processCell ctx sH dH s acc c).stopped = false →
      ∀ x ∈ (processCell ctx sH dH s acc c).trace, ctx.cb (s x.1) x.2.1 x.2.2 = false) ∧
    ((processCell ctx sH dH s acc c).stopped = true →
      ∀ x ∈ (processCell ctx sH dH s acc c).trace.dropLast,
        ctx.cb (s x.1) x.2.1 x.2.2 = false) := by
  by_cases hst : acc.stopped
  · rw [processCell, if_pos hst]
    exact ⟨h1, h2⟩
  · rw [processCell, if_neg hst]
    simp only
    have hb : acc.stopped = false := by
      cases hq : acc.stopped
      · rfl
      · exact absurd hq hst
    exact runCallbacks_spec ctx s _ _ _ (h1 hb)

/-- C5: if the callback returns true for some reported hit, that hit is
the last callback invocation of the whole ray cast: every invocation in
the trace except possibly the final one had the callback return false
(later sorted candidates of the cell and all remaining cells are
abandoned). -/
theorem claim_C5_early_termination (ctx : RayCtx) (sH dH : SpatialHashing) (s : Store)
    (cells : List (Int × Int)) :
    ∀ x ∈ (raycastRun ctx sH dH s cells).trace.dropLast,
      ctx.cb (s x.1) x.2.1 x.2.2 = false := by
  have main : ∀ (cl : List (Int × Int)) (acc : RayAcc),
      (acc.stopped = false → ∀ x ∈ acc.trace, ctx.cb (s x.1) x.2.1 x.2.2 = false) →
      (acc.stopped = true → ∀ x ∈ acc.trace.dropLast, ctx.cb (s x.1) x.2.1 x.2.2 = false) →
      ((cl.foldl (processCell ctx sH dH s) acc).stopped = false →
        ∀ x ∈ (cl.foldl (processCell ctx sH dH s) acc).trace,
          ctx.cb (s x.1) x.2.1 x.2.2 = false) ∧
      ((cl.foldl (processCell ctx sH dH s) acc).stopped = true →
        ∀ x ∈ (cl.foldl (processCell ctx sH dH s) acc).trace.dropLast,
          ctx.cb (s x.1) x.2.1 x.2.2 = false) := by
    intro cl
    induction cl with
    | nil =>
      intro acc hh1 hh2
      exact ⟨hh1, hh2⟩
    | cons c rest ih =>
      intro acc hh1 hh2
      simp only [List.foldl_cons]
      obtain ⟨g1, g2⟩ := processCell_cb_spec ctx sH dH s acc c hh1 hh2
      exact ih _ g1 g2
  have hfin := main cells ⟨[], [], false⟩ (by intro _ x hx; simp at hx)
    (by intro h; simp at h)
  intro x hx
  cases hstop : (raycastRun ctx sH dH s cells).stopped
  · exact hfin.1 hstop x ((List.dropLast_sublist _).mem hx)
  · exact hfin.2 hstop x hx

theorem raycastRun_c5_eval :
    raycastRun ctx3 staticH5 dynH3 store4 [(6, 0)]
      = ⟨[1, 2], [(2, 5, 10), (1, 5, 10)], false⟩ := by
  norm_num [raycastRun, processCell, segStart, segEnd, ctx3, staticH5, dynH3, store4,
    SpatialHashing.get_on_index, recordCands, insertId, distTo, mySqrt,
    sortByNear, insortNear, runCallbacks, max_def, min_def]

theorem claim_C5_early_termination_witness :
    ctx3.cb (store4 2) 5 10 = false :=
  claim_C5_early_termination ctx3 staticH5 dynH3 store4 [(6, 0)] (2, 5, 10)
    (by rw [raycastRun_c5_eval]; simp)

theorem insertId_mem (v : List Nat) (b i : Nat) :
    i ∈ insertId v b ↔ i = b ∨ i ∈ v := by
  unfold insertId
  split
  · next hb =>
    constructor
    · exact fun h => Or.inr h
    · intro h
      rcases h with h | h
      · rw [h]; exact hb
      · exact h
  · exact List.mem_cons

theorem recordCands_visited_mem (ctx : RayCtx) (s : Store) (segS segE : ℚ) :
    ∀ (l visited : List Nat) (i : Nat),
      i ∈ (recordCands ctx s segS segE l visited).1 ↔
        i ∈ visited ∨ ∃ r ∈ l, (s r).body.id = i ∧
          ∃ x1 y1 x2 y2, ctx.bodyRaycast (s r).body = some (x1, y1, x2, y2) ∧
            (segS ≤ x2 ∧ x1 ≤ segE) := by
  intro l
  induction l with
  | nil =>
    intro visited i
    simp [recordCands]
  | cons a t ih =>
    intro visited i
    simp only [recordCands]
    split
    · next heq =>
      rw [ih]
      constructor
      · rintro (hv | ⟨r, hr, hrest⟩)
        · exact Or.inl hv
        · exact Or.inr ⟨r, List.mem_cons_of_mem a hr, hrest⟩
      · rintro (hv | ⟨r, hr, hid, x1, y1, x2, y2, hbr, hov⟩)
        · exact Or.inl hv
        · rcases List.mem_cons.mp hr with hra | hrt
          · subst hra
            rw [heq] at hbr
            exact absurd hbr (by simp)
          · exact Or.inr ⟨r, hrt, hid, x1, y1, x2, y2, hbr, hov⟩
    · next x xmin ymin xmax ymax heq =>
      split
      · next hov =>
        simp only
        rw [ih]
        rw [insertId_mem]
        constructor
        · rintro ((hia | hv) | ⟨r, hr, hrest⟩)
          · exact Or.inr ⟨a, List.mem_cons_self _ _, hia.symm,
              xmin, ymin, xmax, ymax, heq, hov⟩
          · exact Or.inl hv
          · exact Or.inr ⟨r, List.mem_cons_of_mem a hr, hrest⟩
        · rintro (hv | ⟨r, hr, hid, x1, y1, x2, y2, hbr, hov'⟩)
          · exact Or.inl (Or.inr hv)
          · rcases List.mem_cons.mp hr with hra | hrt
            · subst hra
              exact Or.inl (Or.inl hid.symm)
            · exact Or.inr ⟨r, hrt, hid, x1, y1, x2, y2, hbr, hov'⟩
      · next hnov =>
        rw [ih]
        constructor
        · rintro (hv | ⟨r, hr, hrest⟩)
          · exact Or.inl hv
          · exact Or.inr ⟨r, List.mem_cons_of_mem a hr, hrest⟩
        · rintro (hv | ⟨r, hr, hid, x1, y1, x2, y2, hbr, hov'⟩)
          · exact Or.inl hv
          · rcases List.mem_cons.mp hr with hra | hrt
            · subst hra
              rw [heq] at hbr
              have h1 : x1 = xmin ∧ y1 = ymin ∧ x2 = xmax ∧ y2 = ymax := by
                have := Option.some.inj hbr.symm
                simpa [Prod.ext_iff] using this
              obtain ⟨e1, e2, e3, e4⟩ := h1
              subst e1; subst e3
              exact absurd hov' hnov
            · exact Or.inr ⟨r, hrt, hid, x1, y1, x2, y2, hbr, hov'⟩

theorem runCallbacks_visited_sub (ctx : RayCtx) (s : Store) :
    ∀ (l : List (Nat × ℚ × ℚ)) (v : List Nat) (tr : List (Nat × ℚ × ℚ)) (i : Nat),
      i ∈ (runCallbacks ctx s l v tr).1 →
      i ∈ v ∨ ∃ x ∈ l, (s x.1).body.id = i := by
  intro l
  induction l with
  | nil =>
    intro v tr i h
    exact Or.inl h
  | cons p rest ih =>
    intro v tr i h
    obtain ⟨r, mn, mx⟩ := p
    simp only [runCallbacks] at h
    split at h
    · simp only at h
      rcases (insertId_mem v (s r).body.id i).mp h with hi | hv
      · exact Or.inr ⟨(r, mn, mx), List.mem_cons_self _ _, hi.symm⟩
      · exact Or.inl hv
    · rcases ih _ _ i h with hv | ⟨x, hx, hid⟩
      · rcases (insertId_mem v (s r).body.id i).mp hv with hi | hv'
        · exact Or.inr ⟨(r, mn, mx), List.mem_cons_self _ _, hi.symm⟩
        · exact Or.inl hv'
      · exact Or.inr ⟨x, List.mem_cons_of_mem _ hx, hid⟩

theorem runCallbacks_cb_false (ctx : RayCtx) (s : Store)
    (hcb : ∀ e a b, ctx.cb e a b = false) :
    ∀ (l : List (Nat × ℚ × ℚ)) (v : List Nat) (tr : List (Nat × ℚ × ℚ)),
      (runCallbacks ctx s l v tr).2.1 = tr ++ l ∧
      (runCallbacks ctx s l v tr).2.2 = false := by
  intro l
  induction l with
  | nil =>
    intro v tr
    simp [runCallbacks]
  | cons p rest ih =>
    intro v tr
    obtain ⟨r, mn, mx⟩ := p
    simp only [runCallbacks, hcb, Bool.false_eq_true, if_false]
    obtain ⟨h1, h2⟩ := ih (insertId v (s r).body.id) (tr ++ [(r, mn, mx)])
    rw [h1, h2]
    simp

theorem recordCands_records (ctx : RayCtx) (s : Store) (segS segE : ℚ) :
    ∀ (l visited : List Nat) (r : Nat) (x1 y1 x2 y2 : ℚ),
      r ∈ l → ctx.bodyRaycast (s r).body = some (x1, y1, x2, y2) →
      (segS ≤ x2 ∧ x1 ≤ segE) →
      ∃ mn mx, (r, mn, mx) ∈ (recordCands ctx s segS segE l visited).2 := by
  intro l
  induction l with
  | nil =>
    intro visited r x1 y1 x2 y2 hr
    exact absurd hr (List.not_mem_nil r)
  | cons a t ih =>
    intro visited r x1 y1 x2 y2 hr hbr hov
    simp only [recordCands]
    split
    · next heq =>
      rcases List.mem_cons.mp hr with hra | hrt
      · subst hra
        rw [heq] at hbr
        exact absurd hbr (by simp)
      · exact ih _ r x1 y1 x2 y2 hrt hbr hov
    · next x xmin ymin xmax ymax heq =>
      rcases List.mem_cons.mp hr with hra | hrt
      · subst hra
        rw [heq] at hbr
        have h1 : xmin = x1 ∧ ymin = y1 ∧ xmax = x2 ∧ ymax = y2 := by
          have := Option.some.inj hbr
          simpa [Prod.ext_iff] using this
        obtain ⟨e1, e2, e3, e4⟩ := h1
        subst e1; subst e2; subst e3; subst e4
        rw [if_pos hov]
        exact ⟨_, _, List.mem_cons_self _ _⟩
      · split
        · next hov' =>
          obtain ⟨mn, mx, hm⟩ := ih _ r x1 y1 x2 y2 hrt hbr hov
          exact ⟨mn, mx, List.mem_cons_of_mem _ hm⟩
        · exact ih _ r x1 y1 x2 y2 hrt hbr hov

theorem processCell_not_visited (ctx : RayCtx) (sH dH : SpatialHashing) (s : Store)
    (acc : RayAcc) (c : Int × Int) (x : Nat)
    (hx : x ∉ acc.visited)
    (hnone : ∀ r' ∈ sH.get_on_index c ++ dH.get_on_index c, (s r').body.id = x →
      ∀ x1 y1 x2 y2, ctx.bodyRaycast (s r').body = some (x1, y1, x2, y2) →
        ¬(segStart ctx c ≤ x2 ∧ x1 ≤ segEnd ctx c)) :
    x ∉ (processCell ctx sH dH s acc c).visited := by
  by_cases hst : acc.stopped
  · rw [processCell, if_pos hst]
    exact hx
  · rw [processCell, if_neg hst]
    simp only
    intro hmem
    rcases runCallbacks_visited_sub ctx s _ _ _ x hmem with hv1 | ⟨h, hh, hid⟩
    · rcases (recordCands_visited_mem ctx s _ _ _ _ x).mp hv1 with hv0 | hcand
      · exact hx hv0
      · obtain ⟨r', hr', hid', x1, y1, x2, y2, hbr', hov'⟩ := hcand
        have hr'' : r' ∈ sH.get_on_index c ++ dH.get_on_index c :=
          List.mem_of_mem_filter (List.mem_reverse.mp hr')
        exact hnone r' hr'' hid' x1 y1 x2 y2 hbr' hov'
    · have hh' := (sortByNear_perm _).mem_iff.mp hh
      obtain ⟨hmemr, x1, y1, x2, y2, hbr', hov', _, _⟩ :=
        recordCands_mem_spec ctx s _ _ _ _ h.1 h.2.1 h.2.2 (by
          have hhp : h = (h.1, h.2.1, h.2.2) := rfl
          rw [← hhp]
          exact hh')
      have hr'' : h.1 ∈ sH.get_on_index c ++ dH.get_on_index c :=
        List.mem_of_mem_filter (List.mem_reverse.mp hmemr)
      exact hnone h.1 hr'' hid x1 y1 x2 y2 hbr' hov'

/-- C10: a candidate of a traversed cell whose infinite-line intersection
interval exists but does not overlap that cell's clipped x-segment is NOT
added to the visited set in that cell (neither at record time nor by the
callback loop), so it still passes the retained-candidate filter of a
later traversed cell and is re-tested, recorded and reported there when
its interval overlaps that later cell's segment. -/
theorem claim_C10_skipped_stays_eligible (ctx : RayCtx) (sH dH : SpatialHashing)
    (s : Store) (acc0 : RayAcc) (c1 c2 : Int × Int) (r : Nat) (x1 y1 x2 y2 : ℚ)
    (hcb : ∀ e a b, ctx.cb e a b = false)
    (hstop : acc0.stopped = false)
    (hv0 : (s r).body.id ∉ acc0.visited)
    (hbr : ctx.bodyRaycast (s r).body = some (x1, y1, x2, y2))
    (hnov1 : ¬(segStart ctx c1 ≤ x2 ∧ x1 ≤ segEnd ctx c1))
    (hsame : ∀ r' ∈ sH.get_on_index c1 ++ dH.get_on_index c1,
      (s r').body.id = (s r).body.id → s r' = s r)
    (hgrp : (s r).body.group &&& ctx.mask ≠ 0)
    (hmem2 : r ∈ sH.get_on_index c2 ++ dH.get_on_index c2)
    (hov2 : segStart ctx c2 ≤ x2 ∧ x1 ≤ segEnd ctx c2) :
    (s r).body.id ∉ (processCell ctx sH dH s acc0 c1).visited ∧
    ∃ mn mx, (r, mn, mx) ∈ (processCell ctx sH dH s (processCell ctx sH dH s acc0 c1) c2).trace := by
  have hpart1 : (s r).body.id ∉ (processCell ctx sH dH s acc0 c1).visited := by
    apply processCell_not_visited ctx sH dH s acc0 c1 _ hv0
    intro r' hr' hid x1' y1' x2' y2' hbr' hov'
    have hsr : s r' = s r := hsame r' hr' hid
    rw [hsr, hbr] at hbr'
    have h1 : x1' = x1 ∧ y1' = y1 ∧ x2' = x2 ∧ y2' = y2 := by
      have := Option.some.inj hbr'.symm
      simpa [Prod.ext_iff] using this
    obtain ⟨e1, _, e3, _⟩ := h1
    subst e1; subst e3
    exact hnov1 hov'
  refine ⟨hpart1, ?_⟩
  have hstop1 : (processCell ctx sH dH s acc0 c1).stopped = false := by
    rw [processCell, if_neg (by rw [hstop]; exact Bool.false_ne_true)]
    simp only
    exact (runCallbacks_cb_false ctx s hcb _ _ _).2
  rw [processCell, if_neg (by rw [hstop1]; exact Bool.false_ne_true)]
  simp only
  have hres2 : r ∈ (sH.get_on_index c2 ++ dH.get_on_index c2).filter
      (fun r' => decide ((s r').body.group &&& ctx.mask ≠ 0)
        && !((processCell ctx sH dH s acc0 c1).visited.contains (s r').body.id)) := by
    apply List.mem_filter.mpr
    refine ⟨hmem2, ?_⟩
    simp only [Bool.and_eq_true, decide_eq_true_eq, Bool.not_eq_true']
    refine ⟨hgrp, ?_⟩
    simpa using hpart1
  obtain ⟨mn, mx, hrec⟩ := recordCands_records ctx s (segStart ctx c2) (segEnd ctx c2)
    _ ((processCell ctx sH dH s acc0 c1).visited) r x1 y1 x2 y2
    (List.mem_reverse.mpr hres2) hbr hov2
  refine ⟨mn, mx, ?_⟩
  rw [(runCallbacks_cb_false ctx s hcb _ _ _).1]
  apply List.mem_append.mpr
  right
  exact (sortByNear_perm _).mem_iff.mpr hrec

theorem claim_C10_skipped_stays_eligible_witness :
    (store4 1).body.id ∉ (processCell ctx3 staticC10 dynH3 store4 ⟨[], [], false⟩ (2, 0)).visited ∧
    ∃ mn mx, (1, mn, mx) ∈ (processCell ctx3 staticC10 dynH3 store4
        (processCell ctx3 staticC10 dynH3 store4 ⟨[], [], false⟩ (2, 0)) (6, 0)).trace :=
  claim_C10_skipped_stays_eligible ctx3 staticC10 dynH3 store4 ⟨[], [], false⟩ (2, 0) (6, 0)
    1 4 8 7 4 (fun _ _ _ => rfl) rfl (by simp) rfl
    (by norm_num [segStart, segEnd, ctx3, max_def, min_def])
    (by
      intro r' hr' _
      have hb : staticC10.get_on_index (2, 0) ++ dynH3.get_on_index (2, 0) = [1] := by decide
      rw [hb] at hr'
      have hr1 : r' = 1 := by simpa using hr'
      subst hr1
      rfl)
    (by decide)
    (by
      have hb : staticC10.get_on_index (6, 0) ++ dynH3.get_on_index (6, 0) = [1] := by decide
      rw [hb]
      simp)
    (by norm_num [segStart, segEnd, ctx3, max_def, min_def])

theorem recordCands_refs_sublist (ctx : RayCtx) (s : Store) (segS segE : ℚ) :
    ∀ (l visited : List Nat),
      ((recordCands ctx s segS segE l visited).2.map (fun x => x.1)).Sublist l := by
  intro l
  induction l with
  | nil =>
    intro visited
    simp [recordCands]
  | cons a t ih =>
    intro visited
    simp only [recordCands]
    split
    · exact (ih visited).cons a
    · split
      · simp only [List.map_cons]
        exact (ih _).cons₂ a
      · exact (ih visited).cons a

theorem runCallbacks_nodup (ctx : RayCtx) (s : Store) :
    ∀ (l : List (Nat × ℚ × ℚ)) (v : List Nat) (tr : List (Nat × ℚ × ℚ)),
      (tr.map (fun x => (s x.1).body.id)).Nodup →
      (∀ x ∈ tr, (s x.1).body.id ∈ v) →
      (l.map (fun x => (s x.1).body.id)).Nodup →
      (∀ x ∈ l, (s x.1).body.id ∉ tr.map (fun y => (s y.1).body.id)) →
      ((runCallbacks ctx s l v tr).2.1.map (fun x => (s x.1).body.id)).Nodup ∧
      ∀ x ∈ (runCallbacks ctx s l v tr).2.1,
        (s x.1).body.id ∈ (runCallbacks ctx s l v tr).1 := by
  intro l
  induction l with
  | nil =>
    intro v tr h1 h2 _ _
    exact ⟨h1, h2⟩
  | cons p rest ih =>
    intro v tr h1 h2 h3 h4
    obtain ⟨r, mn, mx⟩ := p
    have hhead : (s r).body.id ∉ tr.map (fun y => (s y.1).body.id) :=
      h4 (r, mn, mx) (List.mem_cons_self _ _)
    have htr' : ((tr ++ [(r, mn, mx)]).map (fun x => (s x.1).body.id)).Nodup := by
      rw [List.map_append]
      rw [List.nodup_append]
      exact ⟨h1, by simp, by
        intro i hi
        simp only [List.map_cons, List.map_nil, List.mem_cons, List.not_mem_nil,
          or_false] at *
        intro hieq
        rw [hieq] at hi
        exact hhead hi⟩
    have hv' : ∀ x ∈ tr ++ [(r, mn, mx)],
        (s x.1).body.id ∈ insertId v (s r).body.id := by
      intro x hx
      rcases List.mem_append.mp hx with hx1 | hx2
      · exact (insertId_mem _ _ _).mpr (Or.inr (h2 x hx1))
      · have : x = (r, mn, mx) := by simpa using hx2
        rw [this]
        exact (insertId_mem _ _ _).mpr (Or.inl rfl)
    simp only [runCallbacks]
    split
    · exact ⟨htr', hv'⟩
    · apply ih
      · exact htr'
      · exact hv'
      · exact (List.nodup_cons.mp (by simpa using h3)).2
      · intro x hx
        rw [List.map_append]
        intro hmem
        rcases List.mem_append.mp hmem with hm1 | hm2
        · exact h4 x (List.mem_cons_of_mem _ hx) hm1
        · have hxr : (s x.1).body.id = (s r).body.id := by simpa using hm2
          have h3' := h3
          simp only [List.map_cons] at h3'
          have hhd := (List.nodup_cons.mp h3').1
          exact hhd (hxr ▸ List.mem_map_of_mem (fun y => (s y.1).body.id) hx)

theorem processCell_nodup (ctx : RayCtx) (sH dH : SpatialHashing) (s : Store)
    (acc : RayAcc) (c : Int × Int)
    (hbucket : ((sH.get_on_index c ++ dH.get_on_index c).map
      (fun r => (s r).body.id)).Nodup)
    (h1 : (acc.trace.map (fun x => (s x.1).body.id)).Nodup)
    (h2 : ∀ x ∈ acc.trace, (s x.1).body.id ∈ acc.visited) :
    ((processCell ctx sH dH s acc c).trace.map (fun x => (s x.1).body.id)).Nodup ∧
    ∀ x ∈ (processCell ctx sH dH s acc c).trace,
      (s x.1).body.id ∈ (processCell ctx sH dH s acc c).visited := by
  by_cases hst : acc.stopped
  · rw [processCell, if_pos hst]
    exact ⟨h1, h2⟩
  · rw [processCell, if_neg hst]
    simp only
    set res := (sH.get_on_index c ++ dH.get_on_index c).filter
      (fun r => decide ((s r).body.group &&& ctx.mask ≠ 0)
        && !(acc.visited.contains (s r).body.id)) with hres
    have hres_sub : res.Sublist (sH.get_on_index c ++ dH.get_on_index c) := by
      rw [hres]
      exact List.filter_sublist _
    have hres_ids : (res.map (fun r => (s r).body.id)).Nodup :=
      (hres_sub.map _).nodup hbucket
    have hrev_ids : (res.reverse.map (fun r => (s r).body.id)).Nodup := by
      rw [List.map_reverse]
      exact List.nodup_reverse.mpr hres_ids
    have hres_unv : ∀ r ∈ res, (s r).body.id ∉ acc.visited := by
      intro r hr
      have hcond := (List.mem_filter.mp (hres ▸ hr)).2
      simp only [Bool.and_eq_true, Bool.not_eq_true'] at hcond
      intro hmem
      have hct : acc.visited.contains (s r).body.id = true := by simpa using hmem
      rw [hct] at hcond
      simp at hcond
    set hits := (recordCands ctx s (segStart ctx c) (segEnd ctx c)
      res.reverse acc.visited).2 with hhits
    have hhit_refs : (hits.map (fun x => x.1)).Sublist res.reverse := by
      rw [hhits]
      exact recordCands_refs_sublist ctx s _ _ _ _
    have hhit_ids : (hits.map (fun x => (s x.1).body.id)).Nodup := by
      have : hits.map (fun x => (s x.1).body.id)
          = (hits.map (fun x => x.1)).map (fun r => (s r).body.id) := by
        rw [List.map_map]
        rfl
      rw [this]
      exact ((hhit_refs.map _).nodup) hrev_ids
    have hhit_mem : ∀ x ∈ hits, x.1 ∈ res := by
      intro x hx
      have : x.1 ∈ hits.map (fun y => y.1) := List.mem_map_of_mem _ hx
      exact List.mem_reverse.mp (hhit_refs.mem this)
    set sorted := sortByNear hits with hsorted
    have hperm : sorted.Perm hits := hsorted ▸ sortByNear_perm hits
    have hsort_ids : (sorted.map (fun x => (s x.1).body.id)).Nodup :=
      ((hperm.map _).nodup_iff).mpr hhit_ids
    have hsort_unv : ∀ x ∈ sorted, (s x.1).body.id ∉ acc.trace.map
        (fun y => (s y.1).body.id) := by
      intro x hx hmem
      obtain ⟨y, hy, hyx⟩ := List.mem_map.mp hmem
      have hxv : (s x.1).body.id ∉ acc.visited :=
        hres_unv x.1 (hhit_mem x (hperm.mem_iff.mp hx))
      exact hxv (hyx ▸ h2 y hy)
    have hv1 : ∀ x ∈ acc.trace, (s x.1).body.id ∈
        (recordCands ctx s (segStart ctx c) (segEnd ctx c) res.reverse acc.visited).1 := by
      intro x hx
      exact (recordCands_visited_mem ctx s _ _ _ _ _).mpr (Or.inl (h2 x hx))
    exact runCallbacks_nodup ctx s sorted _ acc.trace h1 hv1 hsort_ids hsort_unv

/-- C4 (amended): during one ray cast the callback fires at most once per
entity id — the trace's id sequence has no duplicates — provided each
traversed cell's combined (static ++ dynamic) bucket lists each id at most
once.  The visited set makes de-duplication global across cells; within a
single cell's combined bucket, duplicate listings of one id (e.g. the same
entity inserted into both indexes at that cell, or inserted twice) are
each recorded and each reported, because the visited filter runs once per
cell, before recording. -/
theorem claim_C4_at_most_once (ctx : RayCtx) (sH dH : SpatialHashing) (s : Store)
    (cells : List (Int × Int))
    (hbuckets : ∀ c ∈ cells, ((sH.get_on_index c ++ dH.get_on_index c).map
      (fun r => (s r).body.id)).Nodup) :
    ((raycastRun ctx sH dH s cells).trace.map (fun x => (s x.1).body.id)).Nodup := by
  have main : ∀ (cl : List (Int × Int)) (acc : RayAcc),
      (∀ c ∈ cl, ((sH.get_on_index c ++ dH.get_on_index c).map
        (fun r => (s r).body.id)).Nodup) →
      (acc.trace.map (fun x => (s x.1).body.id)).Nodup →
      (∀ x ∈ acc.trace, (s x.1).body.id ∈ acc.visited) →
      ((cl.foldl (processCell ctx sH dH s) acc).trace.map
        (fun x => (s x.1).body.id)).Nodup ∧
      ∀ x ∈ (cl.foldl (processCell ctx sH dH s) acc).trace,
        (s x.1).body.id ∈ (cl.foldl (processCell ctx sH dH s) acc).visited := by
    intro cl
    induction cl with
    | nil =>
      intro acc _ hh1 hh2
      exact ⟨hh1, hh2⟩
    | cons c rest ih =>
      intro acc hb hh1 hh2
      simp only [List.foldl_cons]
      obtain ⟨g1, g2⟩ := processCell_nodup ctx sH dH s acc c
        (hb c (List.mem_cons_self _ _)) hh1 hh2
      exact ih _ (fun c' hc' => hb c' (List.mem_cons_of_mem _ hc')) g1 g2
  exact (main cells ⟨[], [], false⟩ hbuckets (by simp) (by simp)).1

theorem claim_C4_at_most_once_witness :
    ((raycastRun ctx3 staticH5 dynH3 store4 [(6, 0)]).trace.map
      (fun x => (store4 x.1).body.id)).Nodup :=
  claim_C4_at_most_once ctx3 staticH5 dynH3 store4 [(6, 0)] (by
    intro c hc
    have hc' : c = (6, 0) := by simpa using hc
    subst hc'
    decide)

/-- C4 counterexample to the claim as stated: an entity listed in BOTH
indexes at the same cell (as happens after the update pass re-inserts
every surviving entity into the dynamic index, or after inserting the
same handle twice) is reported twice by one ray cast — the visited filter
runs once per cell before recording, so the second listing in the same
cell is not filtered. -/
theorem claim_C4_counterexample :
    (raycastRun ctx3 staticH3 dynC4 store4 [(6, 0)]).trace = [(1, 5, 10), (1, 5, 10)] ∧
    ¬ ((raycastRun ctx3 staticH3 dynC4 store4 [(6, 0)]).trace.map
        (fun x => (store4 x.1).body.id)).Nodup := by
  have heval : raycastRun ctx3 staticH3 dynC4 store4 [(6, 0)]
      = ⟨[1], [(1, 5, 10), (1, 5, 10)], false⟩ := by
    norm_num [raycastRun, processCell, segStart, segEnd, ctx3, staticH3, dynC4, store4,
      SpatialHashing.get_on_index, recordCands, insertId, distTo, mySqrt,
      sortByNear, insortNear, runCallbacks, max_def, min_def]
  exact ⟨by rw [heval], by rw [heval]; decide⟩

end Ruga
